import Mathlib

/-!
# Article usecase of go-clean-arch

A shallow embedding of `domain/usecases/article/usecase.go`: the six usecase
operations over an article repository and an author repository, and the
concurrent author enrichment `fillAuthorDetails`.

* Repositories are the interfaces of `domain/repositories`: records of
  functions returning the Go result tuple (value, error).  Every usecase
  operation also yields the list of repository calls it made, in call order.
* `fillAuthorDetails` starts one goroutine per distinct author id, a goroutine
  that waits for the group and closes the channel, and collects from an
  unbuffered channel.  It is embedded as a transition system over the program
  counters of these goroutines; a schedule (a list of choices among the
  enabled transitions) resolves the interleaving and the iteration order of
  the Go map.
* Contexts and deadlines carry no data here: a cancelled or expired context
  shows only as a repository call that returns an error.
* `Fetch` of `repository/mysql/article/mysql_article.go` is embedded over the
  result of its query and the two cursor helpers; a run-time panic is `none`.
-/

namespace GoCleanArch

/-! ## Entities and errors -/

/-- Modelled from the spec: the error values of package `domain`
(`domain/errors.go` is not among the sources); `other` stands for any error
value of a lower layer. -/
inductive Error where
  | ErrNotFound
  | ErrConflict
  | ErrBadParamInput
  | other (msg : String)
deriving DecidableEq

/-- Modelled from the spec: `entities.Author` (the entities package is not
among the sources): identity, name and two timestamps, timestamps as
integers with 0 for the zero time. -/
structure Author where
  ID : Int
  Name : String
  CreatedAt : Int
  UpdatedAt : Int
deriving DecidableEq

/-- Modelled from the spec: `entities.Article` (the entities package is not
among the sources): identity, title, content, author reference and two
timestamps. -/
structure Article where
  ID : Int
  Title : String
  Content : String
  Author : Author
  UpdatedAt : Int
  CreatedAt : Int
deriving DecidableEq

/-- The Go zero value `entities.Author{}`. -/
def zeroAuthor : GoCleanArch.Author := ⟨0, "", 0, 0⟩

/-- The Go zero value `entities.Article{}`. -/
def zeroArticle : Article := ⟨0, "", "", zeroAuthor, 0, 0⟩

/-! ## Repositories (domain/repositories) -/

/-- The interface `repositories.AuthorRepository`. -/
structure AuthorRepository where
  GetByID : Int → GoCleanArch.Author × Option Error

/-- The interface `repositories.ArticleRepository`.  `Update` and `Store`
take a pointer in Go; here they return the article as the callee leaves it. -/
structure ArticleRepository where
  Fetch : String → Int → List Article × String × Option Error
  GetByID : Int → Article × Option Error
  GetByTitle : String → Article × Option Error
  Update : Article → Article × Option Error
  Store : Article → Article × Option Error
  Delete : Int → Option Error

/-- A call made on one of the two repositories, with its arguments. -/
inductive Call where
  | articleFetch (cursor : String) (num : Int)
  | articleGetByID (id : Int)
  | articleGetByTitle (title : String)
  | articleUpdate (ar : Article)
  | articleStore (a : Article)
  | articleDelete (id : Int)
  | authorGetByID (id : Int)
deriving DecidableEq

/-- The struct `usecase`. -/
structure usecase where
  articleRepo : ArticleRepository
  authorRepo : AuthorRepository
  contextTimeout : Nat

/-- What a call that may block forever yields: `result = none` when the call
never returns to its caller, and the repository calls made in any case. -/
structure Outcome (α : Type) where
  result : Option α
  calls : List Call
deriving DecidableEq

/-! ## The Go map `mapAuthors` -/

/-- A Go `map[int64]entities.Author` as an association list. -/
abbrev AuthorMap := List (Int × GoCleanArch.Author)

/-- The assignment `m[k] = v`. -/
def mapSet : AuthorMap → Int → GoCleanArch.Author → AuthorMap
  | [], k, v => [(k, v)]
  | (k0, v0) :: rest, k, v =>
    if k0 = k then (k, v) :: rest else (k0, v0) :: mapSet rest k v

/-- The lookup `v, ok := m[k]`. -/
def mapGet : AuthorMap → Int → Option GoCleanArch.Author
  | [], _ => none
  | (k0, v0) :: rest, k => if k0 = k then some v0 else mapGet rest k

/-- The keys of the map. -/
def mapKeys (m : AuthorMap) : List Int := m.map Prod.fst

/-- Lines 48-52 of usecase.go: one zero-valued entry per referenced author id. -/
def collectAuthors (data : List Article) : AuthorMap :=
  data.foldl (fun m article => mapSet m article.Author.ID zeroAuthor) []

/-- Lines 86-91 of usecase.go: the merge loop over `data`. -/
def mergeAuthors (mapAuthors : AuthorMap) (data : List Article) : List Article :=
  data.map fun item =>
    match mapGet mapAuthors item.Author.ID with
    | some a => { item with Author := a }
    | none => item

/-- Lines 82-92 of usecase.go: what `fillAuthorDetails` returns once the
collection loop has ended, from the error of `g.Wait()`. -/
def afterCollect (gerr : Option Error) (mapAuthors : AuthorMap) (data : List Article) :
    List Article × Option Error :=
  match gerr with
  | some err => ([], some err)
  | none => (mergeAuthors mapAuthors data, none)

/-! ## The goroutines of fillAuthorDetails -/

/-- Program counter of the calling goroutine inside `fillAuthorDetails`. -/
inductive MainPC where
  /-- in `for authorID := range mapAuthors`, with the keys not yet visited -/
  | spawning (todo : List Int)
  /-- in `for author := range chanAuthor` -/
  | ranging
  /-- at `g.Wait()` on line 82 -/
  | waiting
  /-- returned to the caller -/
  | returned (res : List Article) (err : Option Error)
deriving DecidableEq

/-- Program counter of the goroutine of lines 67-74. -/
inductive WaiterPC where
  | notStarted
  | inWait
  | exited
deriving DecidableEq

/-- The state of one run of `fillAuthorDetails`.
`pending`: ids of the group goroutines that have not yet called `GetByID`;
`sending`: the goroutines blocked in `chanAuthor <- res`, with their value;
`closed`: whether `chanAuthor` is closed; `gerr`: the first error of the group;
`calls`: the ids passed to `AuthorRepository.GetByID` so far. -/
structure State where
  main : MainPC
  pending : List Int
  sending : List (Int × GoCleanArch.Author)
  waiter : WaiterPC
  closed : Bool
  gerr : Option Error
  mapAuthors : AuthorMap
  calls : List Int
deriving DecidableEq

/-- The transitions of the goroutines. -/
inductive Event where
  /-- the caller visits key `id` of `mapAuthors` and runs `g.Go` -/
  | spawn (id : Int)
  /-- the caller leaves the key loop and starts the goroutine of line 67 -/
  | goWaiter
  /-- the goroutine of `id` calls `GetByID` and, on error, returns it -/
  | lookup (id : Int)
  /-- the goroutine of `id` hands `a` over the channel; the caller runs lines 77-79 -/
  | transfer (id : Int) (a : GoCleanArch.Author)
  /-- `g.Wait()` of line 68 returns; the channel is closed when there is no error -/
  | waiterWake
  /-- the caller sees the closed channel and leaves the collection loop -/
  | rangeEnd
  /-- `g.Wait()` of line 82 returns and the caller runs lines 82-92 -/
  | finish
deriving DecidableEq

/-- The error kept by the errgroup: the first one. -/
def firstErr (gerr : Option Error) (err : Error) : Option Error :=
  match gerr with
  | some e => some e
  | none => some err

/-- One transition, `none` when the event is not enabled in `s`. -/
def step? (repo : AuthorRepository) (data : List Article) (ev : Event) (s : State) :
    Option State :=
  match ev with
  | .spawn id =>
    match s.main with
    | .spawning todo =>
      if id ∈ todo then
        some { s with main := .spawning (todo.erase id), pending := s.pending ++ [id] }
      else none
    | _ => none
  | .goWaiter =>
    match s.main with
    | .spawning [] => some { s with main := .ranging, waiter := .inWait }
    | _ => none
  | .lookup id =>
    if id ∈ s.pending then
      match repo.GetByID id with
      | (res, none) =>
        some { s with pending := s.pending.erase id, sending := s.sending ++ [(id, res)],
                      calls := s.calls ++ [id] }
      | (_, some err) =>
        some { s with pending := s.pending.erase id, gerr := firstErr s.gerr err,
                      calls := s.calls ++ [id] }
    else none
  | .transfer id a =>
    match s.main with
    | .ranging =>
      if (id, a) ∈ s.sending then
        some { s with sending := s.sending.erase (id, a),
                      mapAuthors := if a ≠ zeroAuthor then mapSet s.mapAuthors a.ID a
                                    else s.mapAuthors }
      else none
    | _ => none
  | .waiterWake =>
    if s.waiter = .inWait ∧ s.pending = [] ∧ s.sending = [] then
      match s.gerr with
      | some _ => some { s with waiter := .exited }
      | none => some { s with waiter := .exited, closed := true }
    else none
  | .rangeEnd =>
    match s.main with
    | .ranging => if s.closed = true then some { s with main := .waiting } else none
    | _ => none
  | .finish =>
    match s.main with
    | .waiting =>
      if s.pending = [] ∧ s.sending = [] then
        some { s with main := .returned (afterCollect s.gerr s.mapAuthors data).1
                                        (afterCollect s.gerr s.mapAuthors data).2 }
      else none
    | _ => none

/-- The events that may be enabled in `s`. -/
def candidates (s : State) : List Event :=
  (match s.main with
    | .spawning todo => todo.map Event.spawn
    | _ => []) ++
  [Event.goWaiter] ++ s.pending.map Event.lookup ++
  s.sending.map (fun p => Event.transfer p.1 p.2) ++
  [Event.waiterWake, Event.rangeEnd, Event.finish]

/-- The events enabled in `s`. -/
def enabled (repo : AuthorRepository) (data : List Article) (s : State) : List Event :=
  (candidates s).filter fun ev => (step? repo data ev s).isSome

/-- Runs the goroutines: at each step the head of the schedule chooses among
the enabled events; the run stops when nothing is enabled. -/
def exec (repo : AuthorRepository) (data : List Article) : Nat → List Nat → State → State
  | 0, _, s => s
  | fuel + 1, sched, s =>
    match enabled repo data s with
    | [] => s
    | ev :: evs =>
      match step? repo data ((ev :: evs).getD (sched.headD 0 % (evs.length + 1)) ev) s with
      | some s1 => exec repo data fuel sched.tail s1
      | none => s

/-- The state on entry to the key loop (line 55). -/
def initState (data : List Article) : State :=
  { main := .spawning (mapKeys (collectAuthors data)), pending := [], sending := [],
    waiter := .notStarted, closed := false, gerr := none,
    mapAuthors := collectAuthors data, calls := [] }

/-- The number of transitions a state can still make, at most. -/
def stepsLeft (s : State) : Nat :=
  (match s.main with
    | .spawning todo => 3 * todo.length + 4
    | .ranging => 2
    | .waiting => 1
    | .returned _ _ => 0) +
  2 * s.pending.length + s.sending.length +
  (match s.waiter with
    | .exited => 0
    | _ => 1)

/-- The state in which a run of the goroutines ends under a schedule: with the
budget `stepsLeft` nothing is enabled any more. -/
def finalState (repo : AuthorRepository) (sched : List Nat) (data : List Article) : State :=
  exec repo data (stepsLeft (initState data)) sched (initState data)

/-! ## The usecase operations -/

/-- The method `fillAuthorDetails`, under a schedule of its goroutines: it
returns when the calling goroutine has returned in the final state, and never
returns when that goroutine is still blocked there. -/
def fillAuthorDetails (a : usecase) (sched : List Nat) (data : List Article) :
    Outcome (List Article × Option Error) :=
  let s := finalState a.authorRepo sched data
  { result :=
      match s.main with
      | .returned res err => some (res, err)
      | _ => none,
    calls := s.calls.map Call.authorGetByID }

/-- Lines 108-112 of usecase.go: what `Fetch` returns from the result of
`fillAuthorDetails`. -/
def fetchReturn (nextCursor : String) (r : List Article × Option Error) :
    List Article × String × Option Error :=
  match r.2 with
  | some err => (r.1, "", some err)
  | none => (r.1, nextCursor, none)

/-- The method `Fetch`. -/
def Fetch (a : usecase) (sched : List Nat) (cursor : String) (num : Int) :
    Outcome (List Article × String × Option Error) :=
  let num := if num = 0 then 10 else num
  match a.articleRepo.Fetch cursor num with
  | (_, _, some err) => { result := some ([], "", some err), calls := [.articleFetch cursor num] }
  | (res, nextCursor, none) =>
    let o := fillAuthorDetails a sched res
    { result := o.result.map (fetchReturn nextCursor),
      calls := .articleFetch cursor num :: o.calls }

/-- The method `GetByID`. -/
def GetByID (a : usecase) (id : Int) : (Article × Option Error) × List Call :=
  match a.articleRepo.GetByID id with
  | (res, some err) => ((res, some err), [.articleGetByID id])
  | (res, none) =>
    match a.authorRepo.GetByID res.Author.ID with
    | (_, some err) => ((zeroArticle, some err), [.articleGetByID id, .authorGetByID res.Author.ID])
    | (resAuthor, none) =>
      (({ res with Author := resAuthor }, none), [.articleGetByID id, .authorGetByID res.Author.ID])

/-- The method `Update`; `now` is the value of `time.Now()`. -/
def Update (a : usecase) (now : Int) (ar : Article) : (Article × Option Error) × List Call :=
  let ar := { ar with UpdatedAt := now }
  (a.articleRepo.Update ar, [.articleUpdate ar])

/-- The method `GetByTitle`. -/
def GetByTitle (a : usecase) (title : String) : (Article × Option Error) × List Call :=
  match a.articleRepo.GetByTitle title with
  | (res, some err) => ((res, some err), [.articleGetByTitle title])
  | (res, none) =>
    match a.authorRepo.GetByID res.Author.ID with
    | (_, some err) =>
      ((zeroArticle, some err), [.articleGetByTitle title, .authorGetByID res.Author.ID])
    | (resAuthor, none) =>
      (({ res with Author := resAuthor }, none),
        [.articleGetByTitle title, .authorGetByID res.Author.ID])

/-- The method `Store`: the article as the callee leaves it, and the error. -/
def Store (a : usecase) (m : Article) : (Article × Option Error) × List Call :=
  let (existed, calls) := GetByTitle a m.Title
  if existed.1 ≠ zeroArticle then ((m, some Error.ErrConflict), calls)
  else
    let r := a.articleRepo.Store m
    (r, calls ++ [.articleStore m])

/-- The method `Delete`. -/
def Delete (a : usecase) (id : Int) : Option Error × List Call :=
  match a.articleRepo.GetByID id with
  | (_, some err) => (some err, [.articleGetByID id])
  | (existedArticle, none) =>
    if existedArticle = zeroArticle then (some Error.ErrNotFound, [.articleGetByID id])
    else (a.articleRepo.Delete id, [.articleGetByID id, .articleDelete id])

/-! ## Invariants of the runs -/

/-- The keys the caller has not yet visited. -/
def todoOf : MainPC → List Int
  | .spawning todo => todo
  | _ => []

/-- While a lookup that fails is still to come or has failed, the channel is
open and the caller is in one of its two loops. -/
def Stuck (bad : Int) (s : State) : Prop :=
  s.closed = false ∧
  (s.main = .ranging ∨ ∃ todo, s.main = .spawning todo ∧ s.waiter = .notStarted) ∧
  (bad ∈ todoOf s.main ∨ bad ∈ s.pending ∨ s.gerr ≠ none)

/-- The ids looked up, the ids of the goroutines still to look up and the
keys still to visit make up the keys of the map. -/
def CallsInv (keys : List Int) (s : State) : Prop :=
  (s.calls ++ s.pending ++ todoOf s.main).Perm keys

/-- Control invariant of the runs in which no lookup fails. -/
structure Ok (data : List Article) (s : State) : Prop where
  gerr : s.gerr = none
  spawning : ∀ todo, s.main = .spawning todo → s.waiter = .notStarted ∧ s.closed = false
  started : (∀ todo, s.main ≠ .spawning todo) → s.waiter ≠ .notStarted
  exited : s.waiter = .exited → s.closed = true
  closed : s.closed = true → s.pending = [] ∧ s.sending = []
  waiting : s.main = .waiting → s.closed = true
  returned : ∀ res err, s.main = .returned res err →
    s.closed = true ∧ res = mergeAuthors s.mapAuthors data ∧ err = none

/-- Every value on its way to the channel is the looked-up author of its
goroutine, and every key holds either its looked-up author or still the zero
entry while its goroutine has not handed over. -/
def MapInv (repo : AuthorRepository) (keys : List Int) (s : State) : Prop :=
  (∀ p ∈ s.sending, p.2 = (repo.GetByID p.1).1 ∧ p.1 ∈ keys) ∧
  (∀ id ∈ keys, mapGet s.mapAuthors id = some (repo.GetByID id).1 ∨
    (mapGet s.mapAuthors id = some zeroAuthor ∧
      (id ∈ todoOf s.main ∨ id ∈ s.pending ∨ id ∈ s.sending.map Prod.fst)))

/-! ## Sample repositories and pages -/

/-- An article as the MySQL repository scans it: the author carries its id only. -/
def sampleArticle (id authorID : Int) : Article :=
  ⟨id, "Hello", "Content", ⟨authorID, "", 0, 0⟩, 0, 0⟩

/-- The page of the example scenario: articles 1 and 2 by author 7, article 3 by author 9. -/
def samplePage : List Article :=
  [sampleArticle 1 7, sampleArticle 2 7, sampleArticle 3 9]

/-- An author repository that knows author 7 "A" and author 9 "B" and fails otherwise. -/
def sampleAuthors : AuthorRepository :=
  ⟨fun id =>
    if id = 7 then (⟨7, "A", 0, 0⟩, none)
    else if id = 9 then (⟨9, "B", 0, 0⟩, none)
    else (zeroAuthor, some Error.ErrNotFound)⟩

/-- An author repository that knows author 7 and fails on every other id. -/
def failingAuthors : AuthorRepository :=
  ⟨fun id =>
    if id = 7 then (⟨7, "A", 0, 0⟩, none)
    else (zeroAuthor, some (Error.other "Unexpected Error"))⟩

/-- An author repository that returns the zero author and no error for every id. -/
def absentAuthors : AuthorRepository :=
  ⟨fun _ => (zeroAuthor, none)⟩

/-- An article repository holding article 1 with title "Hello" by author 7;
`Fetch` returns the sample page and the cursor "next-cursor". -/
def sampleArticles : ArticleRepository where
  Fetch := fun _ _ => (samplePage, "next-cursor", none)
  GetByID := fun id =>
    if id = 1 then (sampleArticle 1 7, none) else (zeroArticle, some Error.ErrNotFound)
  GetByTitle := fun title =>
    if title = "Hello" then (sampleArticle 1 7, none) else (zeroArticle, some Error.ErrNotFound)
  Update := fun ar => (ar, none)
  Store := fun a => ({ a with ID := 2 }, none)
  Delete := fun _ => none

/-- An article repository in which every call fails. -/
def brokenArticles : ArticleRepository where
  Fetch := fun _ _ => ([], "", some (Error.other "Unexpexted Error"))
  GetByID := fun _ => (zeroArticle, some (Error.other "Unexpected Error"))
  GetByTitle := fun _ => (zeroArticle, some (Error.other "Unexpected Error"))
  Update := fun ar => (ar, some (Error.other "Unexpected Error"))
  Store := fun a => (a, some (Error.other "Unexpected Error"))
  Delete := fun _ => some (Error.other "Unexpected Error")

/-- In every run, what the caller returns is what lines 82-92 make of some
group error and some map. -/
def RetInv (data : List Article) (s : State) : Prop :=
  ∀ res err, s.main = .returned res err →
    ∃ (g : Option Error) (m : AuthorMap), (res, err) = afterCollect g m data

/-! ## The MySQL article repository (repository/mysql/article) -/

/-- Go's conversion `int(num)` of an int64, with `int` 64 bits wide. -/
def toInt (num : Int) : Int := (num + 2 ^ 63) % 2 ^ 64 - 2 ^ 63

/-- The Go index expression `res[i]`: `none` is the run-time panic
"index out of range". -/
def indexArticle (res : List Article) (i : Int) : Option Article :=
  if 0 ≤ i ∧ i < res.length then res[i.toNat]? else none

/-- The struct `mysqlArticleRepository` seen from `Fetch`: the outcome of the
method `fetch` for the paging query, by decoded cursor and limit, and the two
cursor helpers of `lib/repository`, which are not among the sources and are
taken as given. -/
structure mysqlArticleRepository where
  fetch : Int → Int → List Article × Option Error
  DecodeCursor : String → Int × Option Error
  EncodeCursor : Int → String

/-- The method `mysqlArticleRepository.Fetch` (mysql_article.go:65-84);
`none` is the run-time panic of the index expression on line 80. -/
def mysqlArticleRepository.Fetch (m : mysqlArticleRepository) (cursor : String) (num : Int) :
    Option (List Article × String × Option Error) :=
  match m.DecodeCursor cursor with
  | (decodedCursor, err) =>
    if err ≠ none ∧ cursor ≠ "" then some ([], "", some Error.ErrBadParamInput)
    else
      match m.fetch decodedCursor num with
      | (_, some err) => some ([], "", some err)
      | (res, none) =>
        if (res.length : Int) = toInt num then
          match indexArticle res ((res.length : Int) - 1) with
          | some last => some (res, m.EncodeCursor last.CreatedAt, none)
          | none => none
        else some (res, "", none)

/-- A MySQL repository whose table holds the sample page in order of creation
(created at 1, 2, 3): the query returns the rows created after the cursor, at
most `num` of them. -/
def sampleMysql : mysqlArticleRepository where
  fetch := fun decodedCursor num =>
    (([({ sampleArticle 1 7 with CreatedAt := 1 } : Article),
       { sampleArticle 2 7 with CreatedAt := 2 },
       { sampleArticle 3 9 with CreatedAt := 3 }].filter
        (fun ar => decide (decodedCursor < ar.CreatedAt))).take num.toNat, none)
  DecodeCursor := fun cursor => if cursor = "" then (0, some (Error.other "empty cursor")) else (2, none)
  EncodeCursor := fun t => if t = 0 then "" else if t = 1 then "c1" else if t = 2 then "c2" else "c3"

/-- The sample page after enrichment by the sample author repository. -/
def enrichedPage : List Article :=
  [⟨1, "Hello", "Content", ⟨7, "A", 0, 0⟩, 0, 0⟩,
   ⟨2, "Hello", "Content", ⟨7, "A", 0, 0⟩, 0, 0⟩,
   ⟨3, "Hello", "Content", ⟨9, "B", 0, 0⟩, 0, 0⟩]

/-! ## Lemmas -/

theorem step?_stepsLeft {repo : AuthorRepository} {data : List Article} {ev : Event}
    {s s1 : State} (h : step? repo data ev s = some s1) : stepsLeft s1 < stepsLeft s := by
  cases ev with
  | spawn id =>
    simp only [step?] at h
    split at h
    · rename_i todo hm
      split at h
      · rename_i hid
        cases h
        have := List.length_erase_of_mem hid
        have hpos := List.length_pos_of_mem hid
        simp only [stepsLeft, hm, List.length_append, List.length_singleton, this]
        omega
      · cases h
    · cases h
  | goWaiter =>
    simp only [step?] at h
    split at h
    · rename_i hm
      cases h
      simp only [stepsLeft, hm, List.length_nil]
      split <;> omega
    · cases h
  | lookup id =>
    simp only [step?] at h
    split at h
    · rename_i hid
      have := List.length_erase_of_mem hid
      have hpos := List.length_pos_of_mem hid
      split at h <;> cases h <;>
        simp only [stepsLeft, List.length_append, List.length_singleton, this] <;> omega
    · cases h
  | transfer id a =>
    simp only [step?] at h
    split at h
    · rename_i hm
      split at h
      · rename_i hid
        cases h
        have := List.length_erase_of_mem hid
        have hpos := List.length_pos_of_mem hid
        simp only [stepsLeft, hm, this]
        omega
      · cases h
    · cases h
  | waiterWake =>
    simp only [step?] at h
    split at h
    · rename_i hc
      obtain ⟨hw, hp, hs⟩ := hc
      split at h <;> cases h <;> simp only [stepsLeft, hw] <;> omega
    · cases h
  | rangeEnd =>
    simp only [step?] at h
    split at h
    · rename_i hm
      split at h
      · cases h
        simp only [stepsLeft, hm]
        omega
      · cases h
    · cases h
  | finish =>
    simp only [step?] at h
    split at h
    · rename_i hm
      split at h
      · cases h
        simp only [stepsLeft, hm]
        omega
      · cases h
    · cases h

theorem mem_enabled {repo : AuthorRepository} {data : List Article} {ev : Event} {s : State}
    (h : ev ∈ enabled repo data s) : ∃ s1, step? repo data ev s = some s1 := by
  simp only [enabled, List.mem_filter] at h
  exact Option.isSome_iff_exists.mp h.2

theorem pick_mem {α : Type} (x : α) (xs : List α) (c : Nat) :
    (x :: xs).getD (c % (xs.length + 1)) x ∈ x :: xs := by
  have hlt : c % (xs.length + 1) < (x :: xs).length := by
    simp only [List.length_cons]
    exact Nat.mod_lt _ (Nat.succ_pos _)
  rw [List.getD_eq_getElem _ _ hlt]
  exact List.getElem_mem hlt

theorem exec_terminal (repo : AuthorRepository) (data : List Article) :
    ∀ (fuel : Nat) (sched : List Nat) (s : State), stepsLeft s ≤ fuel →
      enabled repo data (exec repo data fuel sched s) = [] := by
  intro fuel
  induction fuel with
  | zero =>
    intro sched s hs
    simp only [exec]
    cases hen : enabled repo data s with
    | nil => rfl
    | cons ev evs =>
      have hmem : ev ∈ enabled repo data s := by rw [hen]; exact List.mem_cons_self _ _
      obtain ⟨s1, h1⟩ := mem_enabled hmem
      have := step?_stepsLeft h1
      omega
  | succ n ih =>
    intro sched s hs
    simp only [exec]
    split
    · assumption
    · rename_i ev evs hen
      have hmem : (ev :: evs).getD (sched.headD 0 % (evs.length + 1)) ev ∈ enabled repo data s := by
        rw [hen]; exact pick_mem ev evs _
      obtain ⟨s1, h1⟩ := mem_enabled hmem
      rw [h1]
      have := step?_stepsLeft h1
      exact ih sched.tail s1 (by omega)

theorem exec_invariant (repo : AuthorRepository) (data : List Article) (P : State → Prop)
    (hstep : ∀ ev s s1, P s → step? repo data ev s = some s1 → P s1) :
    ∀ (fuel : Nat) (sched : List Nat) (s : State), P s → P (exec repo data fuel sched s) := by
  intro fuel
  induction fuel with
  | zero => intro sched s hs; exact hs
  | succ n ih =>
    intro sched s hs
    simp only [exec]
    split
    · exact hs
    · split
      · rename_i s1 h1
        exact ih _ _ (hstep _ _ _ hs h1)
      · exact hs

theorem step?_spawn {repo : AuthorRepository} {data : List Article} {id : Int} {s s1 : State}
    (h : step? repo data (.spawn id) s = some s1) :
    ∃ todo, s.main = .spawning todo ∧ id ∈ todo ∧
      s1 = { s with main := .spawning (todo.erase id), pending := s.pending ++ [id] } := by
  simp only [step?] at h
  split at h
  · rename_i todo hm
    split at h
    · rename_i hid
      exact ⟨todo, hm, hid, (Option.some.inj h).symm⟩
    · cases h
  · cases h

theorem step?_goWaiter {repo : AuthorRepository} {data : List Article} {s s1 : State}
    (h : step? repo data .goWaiter s = some s1) :
    s.main = .spawning [] ∧ s1 = { s with main := .ranging, waiter := .inWait } := by
  simp only [step?] at h
  split at h
  · rename_i hm
    exact ⟨hm, (Option.some.inj h).symm⟩
  · cases h

theorem step?_lookup {repo : AuthorRepository} {data : List Article} {id : Int} {s s1 : State}
    (h : step? repo data (.lookup id) s = some s1) :
    id ∈ s.pending ∧
      ((∃ res, repo.GetByID id = (res, none) ∧
          s1 = { s with pending := s.pending.erase id, sending := s.sending ++ [(id, res)],
                        calls := s.calls ++ [id] }) ∨
       (∃ res err, repo.GetByID id = (res, some err) ∧
          s1 = { s with pending := s.pending.erase id, gerr := firstErr s.gerr err,
                        calls := s.calls ++ [id] })) := by
  simp only [step?] at h
  split at h
  · rename_i hid
    refine ⟨hid, ?_⟩
    split at h
    · rename_i res hr
      exact Or.inl ⟨res, hr, (Option.some.inj h).symm⟩
    · rename_i res err hr
      exact Or.inr ⟨res, err, hr, (Option.some.inj h).symm⟩
  · cases h

theorem step?_transfer {repo : AuthorRepository} {data : List Article} {id : Int}
    {a : GoCleanArch.Author} {s s1 : State}
    (h : step? repo data (.transfer id a) s = some s1) :
    s.main = .ranging ∧ (id, a) ∈ s.sending ∧
      s1 = { s with sending := s.sending.erase (id, a),
                    mapAuthors := if a ≠ zeroAuthor then mapSet s.mapAuthors a.ID a
                                  else s.mapAuthors } := by
  simp only [step?] at h
  split at h
  · rename_i hm
    split at h
    · rename_i hid
      exact ⟨hm, hid, (Option.some.inj h).symm⟩
    · cases h
  · cases h

theorem step?_waiterWake {repo : AuthorRepository} {data : List Article} {s s1 : State}
    (h : step? repo data .waiterWake s = some s1) :
    s.waiter = .inWait ∧ s.pending = [] ∧ s.sending = [] ∧
      ((∃ e, s.gerr = some e ∧ s1 = { s with waiter := .exited }) ∨
       (s.gerr = none ∧ s1 = { s with waiter := .exited, closed := true })) := by
  simp only [step?] at h
  split at h
  · rename_i hc
    refine ⟨hc.1, hc.2.1, hc.2.2, ?_⟩
    split at h
    · rename_i e he
      exact Or.inl ⟨e, he, (Option.some.inj h).symm⟩
    · rename_i he
      exact Or.inr ⟨he, (Option.some.inj h).symm⟩
  · cases h

theorem step?_rangeEnd {repo : AuthorRepository} {data : List Article} {s s1 : State}
    (h : step? repo data .rangeEnd s = some s1) :
    s.main = .ranging ∧ s.closed = true ∧ s1 = { s with main := .waiting } := by
  simp only [step?] at h
  split at h
  · rename_i hm
    split at h
    · rename_i hc
      exact ⟨hm, hc, (Option.some.inj h).symm⟩
    · cases h
  · cases h

theorem step?_finish {repo : AuthorRepository} {data : List Article} {s s1 : State}
    (h : step? repo data .finish s = some s1) :
    s.main = .waiting ∧ s.pending = [] ∧ s.sending = [] ∧
      s1 = { s with main := .returned (afterCollect s.gerr s.mapAuthors data).1
                                      (afterCollect s.gerr s.mapAuthors data).2 } := by
  simp only [step?] at h
  split at h
  · rename_i hm
    split at h
    · rename_i hc
      exact ⟨hm, hc.1, hc.2, (Option.some.inj h).symm⟩
    · cases h
  · cases h

/-! ### The Go map -/

theorem mem_mapKeys_mapSet (m : AuthorMap) (k0 : Int) (v : GoCleanArch.Author) (k : Int) :
    k ∈ mapKeys (mapSet m k0 v) ↔ k = k0 ∨ k ∈ mapKeys m := by
  induction m with
  | nil => simp [mapSet, mapKeys]
  | cons p rest ih =>
    obtain ⟨k1, v1⟩ := p
    simp only [mapKeys] at ih
    by_cases h : k1 = k0
    · subst h
      simp [mapSet, mapKeys]
    · simp only [mapSet, h, if_false, mapKeys, List.map_cons, List.mem_cons, ih]
      tauto

theorem nodup_mapKeys_mapSet (m : AuthorMap) (k0 : Int) (v : GoCleanArch.Author)
    (h : (mapKeys m).Nodup) : (mapKeys (mapSet m k0 v)).Nodup := by
  induction m with
  | nil => simp [mapSet, mapKeys]
  | cons p rest ih =>
    obtain ⟨k1, v1⟩ := p
    simp only [mapKeys, List.map_cons, List.nodup_cons] at h
    by_cases hk : k1 = k0
    · subst hk
      simp only [mapSet, if_true, mapKeys, List.map_cons, List.nodup_cons]
      exact h
    · simp only [mapSet, hk, if_false, mapKeys, List.map_cons, List.nodup_cons]
      refine ⟨?_, ih h.2⟩
      intro hmem
      have := (mem_mapKeys_mapSet rest k0 v k1).1 hmem
      rcases this with h1 | h1
      · exact hk h1
      · exact h.1 h1

theorem mapGet_mapSet (m : AuthorMap) (k0 : Int) (v : GoCleanArch.Author) (k : Int) :
    mapGet (mapSet m k0 v) k = if k = k0 then some v else mapGet m k := by
  induction m with
  | nil =>
    by_cases h : k = k0
    · simp [mapSet, mapGet, h]
    · have h2 : ¬ k0 = k := fun e => h e.symm
      simp [mapSet, mapGet, h, h2]
  | cons p rest ih =>
    obtain ⟨k1, v1⟩ := p
    by_cases h1 : k1 = k0
    · subst h1
      by_cases h : k = k1
      · subst h
        simp [mapSet, mapGet]
      · have h2 : ¬ k1 = k := fun e => h e.symm
        simp [mapSet, mapGet, h, h2]
    · by_cases h : k = k0
      · subst h
        simp [mapSet, mapGet, h1, ih]
      · simp [mapSet, mapGet, h1, h, ih]

theorem mapGet_isSome_iff (m : AuthorMap) (k : Int) : (mapGet m k).isSome ↔ k ∈ mapKeys m := by
  induction m with
  | nil => simp [mapGet, mapKeys]
  | cons p rest ih =>
    obtain ⟨k1, v1⟩ := p
    simp only [mapKeys] at ih
    by_cases h : k1 = k
    · simp [mapGet, mapKeys, h]
    · have h2 : ¬ k = k1 := fun e => h e.symm
      simp [mapGet, mapKeys, h, h2, ih]

theorem mem_mapKeys_collectAuthors_aux (data : List Article) :
    ∀ (m : AuthorMap) (k : Int),
      k ∈ mapKeys (data.foldl (fun m article => mapSet m article.Author.ID zeroAuthor) m) ↔
        k ∈ mapKeys m ∨ k ∈ data.map (fun ar => ar.Author.ID) := by
  induction data with
  | nil => intro m k; simp
  | cons ar rest ih =>
    intro m k
    simp only [List.foldl_cons, ih, mem_mapKeys_mapSet, List.map_cons, List.mem_cons]
    tauto

theorem mem_mapKeys_collectAuthors (data : List Article) (k : Int) :
    k ∈ mapKeys (collectAuthors data) ↔ k ∈ data.map (fun ar => ar.Author.ID) := by
  unfold collectAuthors
  rw [mem_mapKeys_collectAuthors_aux]
  simp [mapKeys]

theorem nodup_mapKeys_collectAuthors (data : List Article) :
    (mapKeys (collectAuthors data)).Nodup := by
  have aux : ∀ (d : List Article) (m : AuthorMap), (mapKeys m).Nodup →
      (mapKeys (d.foldl (fun m article => mapSet m article.Author.ID zeroAuthor) m)).Nodup := by
    intro d
    induction d with
    | nil => intro m hm; exact hm
    | cons ar rest ih =>
      intro m hm
      exact ih _ (nodup_mapKeys_mapSet m _ _ hm)
  exact aux data [] (by simp [mapKeys])

theorem mapGet_collectAuthors (data : List Article) (k : Int)
    (hk : k ∈ mapKeys (collectAuthors data)) : mapGet (collectAuthors data) k = some zeroAuthor := by
  have aux : ∀ (d : List Article) (m : AuthorMap),
      (∀ k, k ∈ mapKeys m → mapGet m k = some zeroAuthor) →
      ∀ k, k ∈ mapKeys (d.foldl (fun m article => mapSet m article.Author.ID zeroAuthor) m) →
        mapGet (d.foldl (fun m article => mapSet m article.Author.ID zeroAuthor) m) k
          = some zeroAuthor := by
    intro d
    induction d with
    | nil => intro m hm k hk; exact hm k hk
    | cons ar rest ih =>
      intro m hm k hk
      refine ih _ ?_ k hk
      intro k2 hk2
      rw [mapGet_mapSet]
      split
      · rfl
      · rename_i hne
        rcases (mem_mapKeys_mapSet m _ _ k2).1 hk2 with h1 | h1
        · exact absurd h1 hne
        · exact hm k2 h1
  exact aux data [] (by simp [mapKeys]) k hk

/-- The distinct author ids of a page are the keys collected on lines 48-52, up to order. -/
theorem mapKeys_collectAuthors_perm (data : List Article) :
    (mapKeys (collectAuthors data)).Perm (data.map (fun ar => ar.Author.ID)).dedup := by
  rw [List.perm_ext_iff_of_nodup (nodup_mapKeys_collectAuthors data) (List.nodup_dedup _)]
  intro k
  rw [mem_mapKeys_collectAuthors, List.mem_dedup]

theorem firstErr_ne_none (g : Option Error) (e : Error) : firstErr g e ≠ none := by
  cases g <;> simp [firstErr]

theorem Stuck_step {repo : AuthorRepository} {data : List Article} {bad : Int}
    (hbad : (repo.GetByID bad).2 ≠ none) (ev : Event) (s s1 : State)
    (hs : Stuck bad s) (h : step? repo data ev s = some s1) : Stuck bad s1 := by
  obtain ⟨hc, hm, hb⟩ := hs
  cases ev with
  | spawn id =>
    obtain ⟨todo, hmain, hid, rfl⟩ := step?_spawn h
    have hw : s.waiter = .notStarted := by
      rcases hm with hm | ⟨t, hm, hw⟩
      · rw [hm] at hmain; cases hmain
      · exact hw
    refine ⟨hc, Or.inr ⟨_, rfl, hw⟩, ?_⟩
    rw [hmain] at hb
    simp only [todoOf] at hb ⊢
    rcases hb with hb | hb | hb
    · by_cases hq : bad = id
      · right; left; simp [hq]
      · left; exact (List.mem_erase_of_ne hq).2 hb
    · right; left; simp [hb]
    · right; right; exact hb
  | goWaiter =>
    obtain ⟨hmain, rfl⟩ := step?_goWaiter h
    refine ⟨hc, Or.inl rfl, ?_⟩
    rw [hmain] at hb
    simp only [todoOf] at hb ⊢
    rcases hb with hb | hb | hb
    · cases hb
    · right; left; exact hb
    · right; right; exact hb
  | lookup id =>
    obtain ⟨hid, hcase⟩ := step?_lookup h
    rcases hcase with ⟨res, hr, rfl⟩ | ⟨res, err, hr, rfl⟩
    · refine ⟨hc, hm, ?_⟩
      rcases hb with hb | hb | hb
      · left; exact hb
      · have hq : bad ≠ id := by
          intro hq
          rw [hq, hr] at hbad
          exact hbad rfl
        right; left; exact (List.mem_erase_of_ne hq).2 hb
      · right; right; exact hb
    · exact ⟨hc, hm, Or.inr (Or.inr (firstErr_ne_none _ _))⟩
  | transfer id a =>
    obtain ⟨hmain, hid, rfl⟩ := step?_transfer h
    exact ⟨hc, hm, hb⟩
  | waiterWake =>
    obtain ⟨hw, hp, hsn, hcase⟩ := step?_waiterWake h
    rcases hcase with ⟨e, he, rfl⟩ | ⟨he, rfl⟩
    · refine ⟨hc, ?_, hb⟩
      rcases hm with hm | ⟨todo, hm, hw2⟩
      · exact Or.inl hm
      · rw [hw] at hw2; cases hw2
    · exfalso
      rcases hb with hb | hb | hb
      · rcases hm with hm | ⟨todo, hm, hw2⟩
        · rw [hm] at hb; cases hb
        · rw [hw] at hw2; cases hw2
      · rw [hp] at hb; cases hb
      · exact hb he
  | rangeEnd =>
    obtain ⟨hmain, hcl, rfl⟩ := step?_rangeEnd h
    rw [hc] at hcl
    cases hcl
  | finish =>
    obtain ⟨hmain, _, _, rfl⟩ := step?_finish h
    rcases hm with hm | ⟨todo, hm, _⟩ <;> rw [hm] at hmain <;> cases hmain

/-! ### What holds where nothing is enabled -/

theorem enabled_nil_iff {repo : AuthorRepository} {data : List Article} {s : State} :
    enabled repo data s = [] ↔ ∀ ev ∈ candidates s, step? repo data ev s = none := by
  simp only [enabled, List.filter_eq_nil_iff, Option.not_isSome_iff_eq_none]

theorem terminal_not_spawning {repo : AuthorRepository} {data : List Article} {s : State}
    (ht : enabled repo data s = []) (todo : List Int) : s.main ≠ .spawning todo := by
  intro hm
  rw [enabled_nil_iff] at ht
  cases todo with
  | nil =>
    have := ht .goWaiter (by simp [candidates])
    simp [step?, hm] at this
  | cons id rest =>
    have := ht (.spawn id) (by simp [candidates, hm])
    simp [step?, hm] at this

theorem terminal_pending {repo : AuthorRepository} {data : List Article} {s : State}
    (ht : enabled repo data s = []) : s.pending = [] := by
  rw [enabled_nil_iff] at ht
  cases hp : s.pending with
  | nil => rfl
  | cons id rest =>
    have := ht (.lookup id) (by simp [candidates, hp])
    simp only [step?, hp, List.mem_cons, true_or, if_true] at this
    split at this <;> cases this

theorem terminal_sending {repo : AuthorRepository} {data : List Article} {s : State}
    (ht : enabled repo data s = []) (hm : s.main = .ranging) : s.sending = [] := by
  rw [enabled_nil_iff] at ht
  cases hp : s.sending with
  | nil => rfl
  | cons p rest =>
    have := ht (.transfer p.1 p.2) (by simp [candidates, hp])
    simp [step?, hp, hm] at this

theorem finalState_terminal (repo : AuthorRepository) (sched : List Nat) (data : List Article) :
    enabled repo data (finalState repo sched data) = [] :=
  exec_terminal repo data _ sched _ (Nat.le_refl _)

theorem stuck_of_failing (repo : AuthorRepository) (sched : List Nat) (data : List Article)
    (bad : Int) (hmem : bad ∈ data.map (fun ar => ar.Author.ID))
    (hbad : (repo.GetByID bad).2 ≠ none) :
    (finalState repo sched data).main = .ranging ∧ (finalState repo sched data).closed = false := by
  have hinit : Stuck bad (initState data) := by
    refine ⟨rfl, Or.inr ⟨_, rfl, rfl⟩, Or.inl ?_⟩
    simp only [initState, todoOf, collectAuthors]
    exact (mem_mapKeys_collectAuthors_aux data [] bad).2 (Or.inr hmem)
  have hfin : Stuck bad (finalState repo sched data) :=
    exec_invariant repo data (Stuck bad) (Stuck_step hbad) _ sched _ hinit
  obtain ⟨hc, hm, _⟩ := hfin
  refine ⟨?_, hc⟩
  rcases hm with hm | ⟨todo, hm, _⟩
  · exact hm
  · exact absurd hm (terminal_not_spawning (finalState_terminal repo sched data) todo)

/-! ### Every key is looked up once -/

theorem perm_move (x l : List Int) (id : Int) (h : id ∈ l) :
    (x ++ [id] ++ l.erase id).Perm (x ++ l) := by
  have h1 : (id :: l.erase id).Perm l := (List.perm_cons_erase h).symm
  have h2 := h1.append_left x
  simpa using h2

theorem CallsInv_step {repo : AuthorRepository} {data : List Article} {keys : List Int}
    (ev : Event) (s s1 : State)
    (hs : CallsInv keys s) (h : step? repo data ev s = some s1) : CallsInv keys s1 := by
  unfold CallsInv at hs ⊢
  cases ev with
  | spawn id =>
    obtain ⟨todo, hmain, hid, rfl⟩ := step?_spawn h
    rw [hmain] at hs
    simp only [todoOf] at hs ⊢
    refine List.Perm.trans ?_ hs
    have := perm_move (s.calls ++ s.pending) todo id hid
    simpa using this
  | goWaiter =>
    obtain ⟨hmain, rfl⟩ := step?_goWaiter h
    rw [hmain] at hs
    simpa [todoOf] using hs
  | lookup id =>
    obtain ⟨hid, hcase⟩ := step?_lookup h
    have := (perm_move s.calls s.pending id hid).append_right (todoOf s.main)
    rcases hcase with ⟨res, hr, rfl⟩ | ⟨res, err, hr, rfl⟩ <;> exact this.trans hs
  | transfer id a =>
    obtain ⟨hmain, hid, rfl⟩ := step?_transfer h
    exact hs
  | waiterWake =>
    obtain ⟨hw, hp, hsn, hcase⟩ := step?_waiterWake h
    rcases hcase with ⟨e, he, rfl⟩ | ⟨he, rfl⟩ <;> exact hs
  | rangeEnd =>
    obtain ⟨hmain, hcl, rfl⟩ := step?_rangeEnd h
    rw [hmain] at hs
    simpa [todoOf] using hs
  | finish =>
    obtain ⟨hmain, _, _, rfl⟩ := step?_finish h
    rw [hmain] at hs
    simpa [todoOf] using hs

theorem CallsInv_init (data : List Article) :
    CallsInv (mapKeys (collectAuthors data)) (initState data) := by
  simp [CallsInv, initState, todoOf]

theorem CallsInv_final (repo : AuthorRepository) (sched : List Nat) (data : List Article) :
    CallsInv (mapKeys (collectAuthors data)) (finalState repo sched data) :=
  exec_invariant repo data _ (fun ev s s1 => CallsInv_step ev s s1) _ sched _ (CallsInv_init data)

/-- In every run each distinct author id is looked up exactly once. -/
theorem calls_final_perm (repo : AuthorRepository) (sched : List Nat) (data : List Article) :
    (finalState repo sched data).calls.Perm (mapKeys (collectAuthors data)) := by
  have h := CallsInv_final repo sched data
  have ht := finalState_terminal repo sched data
  unfold CallsInv at h
  rw [terminal_pending ht] at h
  have htodo : todoOf (finalState repo sched data).main = [] := by
    cases hm : (finalState repo sched data).main with
    | spawning todo => exact absurd hm (terminal_not_spawning ht todo)
    | ranging => rfl
    | waiting => rfl
    | returned r e => rfl
  rw [htodo] at h
  simpa using h

/-! ### Runs in which no lookup fails -/

theorem Ok_init (data : List Article) : Ok data (initState data) where
  gerr := rfl
  spawning := fun _ _ => ⟨rfl, rfl⟩
  started := fun h => absurd rfl (h _)
  exited := fun h => by cases h
  closed := fun h => by cases h
  waiting := fun h => by cases h
  returned := fun _ _ h => by cases h

theorem mem_keys_of_pending {keys : List Int} {s : State} (hc : CallsInv keys s) {id : Int}
    (hid : id ∈ s.pending) : id ∈ keys := by
  unfold CallsInv at hc
  exact hc.subset (by simp [hid])

theorem Ok_step {repo : AuthorRepository} {data : List Article} {keys : List Int}
    (hok : ∀ id ∈ keys, (repo.GetByID id).2 = none) (ev : Event) (s s1 : State)
    (hc : CallsInv keys s) (hs : Ok data s) (h : step? repo data ev s = some s1) :
    Ok data s1 := by
  cases ev with
  | spawn id =>
    obtain ⟨todo, hmain, hid, rfl⟩ := step?_spawn h
    have hw := hs.spawning todo hmain
    exact {
      gerr := hs.gerr
      spawning := fun _ _ => hw
      started := fun h => absurd rfl (h _)
      exited := hs.exited
      closed := fun h => by rw [hw.2] at h; cases h
      waiting := fun h => by cases h
      returned := fun _ _ h => by cases h }
  | goWaiter =>
    obtain ⟨hmain, rfl⟩ := step?_goWaiter h
    have hw := hs.spawning [] hmain
    exact {
      gerr := hs.gerr
      spawning := fun _ h => by cases h
      started := fun _ h => by cases h
      exited := fun h => by cases h
      closed := fun h => by rw [hw.2] at h; cases h
      waiting := fun h => by cases h
      returned := fun _ _ h => by cases h }
  | lookup id =>
    obtain ⟨hid, hcase⟩ := step?_lookup h
    have hncl : s.closed = false := by
      cases hcl : s.closed with
      | false => rfl
      | true =>
        have := (hs.closed hcl).1
        rw [this] at hid
        cases hid
    rcases hcase with ⟨res, hr, rfl⟩ | ⟨res, err, hr, rfl⟩
    · exact {
        gerr := hs.gerr
        spawning := hs.spawning
        started := hs.started
        exited := hs.exited
        closed := fun h => by rw [hncl] at h; cases h
        waiting := hs.waiting
        returned := hs.returned }
    · have := hok id (mem_keys_of_pending hc hid)
      rw [hr] at this
      cases this
  | transfer id a =>
    obtain ⟨hmain, hid, rfl⟩ := step?_transfer h
    have hncl : s.closed = false := by
      cases hcl : s.closed with
      | false => rfl
      | true =>
        have := (hs.closed hcl).2
        rw [this] at hid
        cases hid
    exact {
      gerr := hs.gerr
      spawning := hs.spawning
      started := hs.started
      exited := hs.exited
      closed := fun h => by rw [hncl] at h; cases h
      waiting := hs.waiting
      returned := fun r e h => by
        have h2 : s.main = .returned r e := h
        rw [hmain] at h2
        cases h2 }
  | waiterWake =>
    obtain ⟨hw, hp, hsn, hcase⟩ := step?_waiterWake h
    rcases hcase with ⟨e, he, rfl⟩ | ⟨he, rfl⟩
    · rw [hs.gerr] at he
      cases he
    · exact {
        gerr := hs.gerr
        spawning := fun todo h => by
          have := (hs.spawning todo h).1
          rw [hw] at this
          cases this
        started := fun _ h => by cases h
        exited := fun _ => rfl
        closed := fun _ => ⟨hp, hsn⟩
        waiting := fun _ => rfl
        returned := fun r e h => ⟨rfl, (hs.returned r e h).2⟩ }
  | rangeEnd =>
    obtain ⟨hmain, hcl, rfl⟩ := step?_rangeEnd h
    exact {
      gerr := hs.gerr
      spawning := fun _ h => by cases h
      started := fun _ => hs.started (fun todo h => by rw [hmain] at h; cases h)
      exited := hs.exited
      closed := hs.closed
      waiting := fun _ => hcl
      returned := fun _ _ h => by cases h }
  | finish =>
    obtain ⟨hmain, hp, hsn, rfl⟩ := step?_finish h
    exact {
      gerr := hs.gerr
      spawning := fun _ h => by cases h
      started := fun _ => hs.started (fun todo h => by rw [hmain] at h; cases h)
      exited := hs.exited
      closed := hs.closed
      waiting := fun h => by cases h
      returned := fun r e h => by
        refine ⟨hs.waiting hmain, ?_⟩
        simp only [hs.gerr, afterCollect, MainPC.returned.injEq] at h
        exact ⟨h.1.symm, h.2.symm⟩ }

/-- Where nothing is enabled in a run without failed lookups, the caller has returned. -/
theorem Ok_terminal {repo : AuthorRepository} {data : List Article} {s : State}
    (hs : Ok data s) (ht : enabled repo data s = []) :
    s.main = .returned (mergeAuthors s.mapAuthors data) none ∧ s.sending = [] := by
  have hp := terminal_pending ht
  cases hm : s.main with
  | spawning todo => exact absurd hm (terminal_not_spawning ht todo)
  | ranging =>
    exfalso
    have hsn := terminal_sending ht hm
    rw [enabled_nil_iff] at ht
    cases hcl : s.closed with
    | true =>
      have := ht .rangeEnd (by simp [candidates])
      simp [step?, hm, hcl] at this
    | false =>
      have hw : s.waiter = .inWait := by
        cases hw : s.waiter with
        | notStarted => exact absurd hw (hs.started (fun todo h => by rw [hm] at h; cases h))
        | inWait => rfl
        | exited =>
          have := hs.exited hw
          rw [hcl] at this
          cases this
      have := ht .waiterWake (by simp [candidates])
      simp [step?, hw, hp, hsn, hs.gerr] at this
  | waiting =>
    exfalso
    have hcl := hs.waiting hm
    obtain ⟨_, hsn⟩ := hs.closed hcl
    rw [enabled_nil_iff] at ht
    have := ht .finish (by simp [candidates])
    simp [step?, hm, hp, hsn] at this
  | returned r e =>
    obtain ⟨hcl, hr, he⟩ := hs.returned r e hm
    exact ⟨by rw [hr, he], (hs.closed hcl).2⟩

theorem Ok_final {repo : AuthorRepository} {data : List Article}
    (hok : ∀ id ∈ mapKeys (collectAuthors data), (repo.GetByID id).2 = none)
    (sched : List Nat) :
    Ok data (finalState repo sched data) := by
  have := exec_invariant repo data
    (fun s => CallsInv (mapKeys (collectAuthors data)) s ∧ Ok data s)
    (fun ev s s1 hs h => ⟨CallsInv_step ev s s1 hs.1 h, Ok_step hok ev s s1 hs.1 hs.2 h⟩)
    (stepsLeft (initState data)) sched (initState data) ⟨CallsInv_init data, Ok_init data⟩
  exact this.2

/-- When no lookup fails, every run ends with the caller returning the merge
of the collected map into the page, and no error. -/
theorem final_returned {repo : AuthorRepository} {data : List Article}
    (hok : ∀ id ∈ mapKeys (collectAuthors data), (repo.GetByID id).2 = none)
    (sched : List Nat) :
    (finalState repo sched data).main =
      .returned (mergeAuthors (finalState repo sched data).mapAuthors data) none :=
  (Ok_terminal (Ok_final hok sched) (finalState_terminal repo sched data)).1

/-! ### What the map holds when each author comes back under its own id -/

theorem MapInv_init (repo : AuthorRepository) (data : List Article) :
    MapInv repo (mapKeys (collectAuthors data)) (initState data) := by
  constructor
  · intro p hp
    cases hp
  · intro id hid
    exact Or.inr ⟨mapGet_collectAuthors data id hid, Or.inl hid⟩

theorem MapInv_step {repo : AuthorRepository} {data : List Article} {keys : List Int}
    (hok : ∀ id ∈ keys, (repo.GetByID id).2 = none)
    (hid : ∀ id ∈ keys, (repo.GetByID id).1 = zeroAuthor ∨ (repo.GetByID id).1.ID = id)
    (ev : Event) (s s1 : State)
    (hc : CallsInv keys s) (hs : MapInv repo keys s) (h : step? repo data ev s = some s1) :
    MapInv repo keys s1 := by
  obtain ⟨hsend, hmap⟩ := hs
  cases ev with
  | spawn id0 =>
    obtain ⟨todo, hmain, hmem, rfl⟩ := step?_spawn h
    refine ⟨hsend, fun id hk => ?_⟩
    rcases hmap id hk with h1 | ⟨h1, h2⟩
    · exact Or.inl h1
    · refine Or.inr ⟨h1, ?_⟩
      rw [hmain] at h2
      simp only [todoOf] at h2 ⊢
      rcases h2 with h2 | h2 | h2
      · by_cases hq : id = id0
        · right; left; simp [hq]
        · left; exact (List.mem_erase_of_ne hq).2 h2
      · right; left; simp [h2]
      · right; right; exact h2
  | goWaiter =>
    obtain ⟨hmain, rfl⟩ := step?_goWaiter h
    refine ⟨hsend, fun id hk => ?_⟩
    rcases hmap id hk with h1 | ⟨h1, h2⟩
    · exact Or.inl h1
    · refine Or.inr ⟨h1, ?_⟩
      rw [hmain] at h2
      simp only [todoOf] at h2 ⊢
      rcases h2 with h2 | h2 | h2
      · cases h2
      · right; left; exact h2
      · right; right; exact h2
  | lookup id0 =>
    obtain ⟨hmem, hcase⟩ := step?_lookup h
    have hk0 := mem_keys_of_pending hc hmem
    rcases hcase with ⟨res, hr, rfl⟩ | ⟨res, err, hr, rfl⟩
    · refine ⟨fun p hp => ?_, fun id hk => ?_⟩
      · rcases List.mem_append.1 hp with hp | hp
        · exact hsend p hp
        · simp only [List.mem_singleton] at hp
          subst hp
          exact ⟨by simp [hr], hk0⟩
      · rcases hmap id hk with h1 | ⟨h1, h2⟩
        · exact Or.inl h1
        · refine Or.inr ⟨h1, ?_⟩
          rcases h2 with h2 | h2 | h2
          · left; exact h2
          · by_cases hq : id = id0
            · right; right; simp [hq]
            · right; left; exact (List.mem_erase_of_ne hq).2 h2
          · right; right; simp only [List.map_append, List.mem_append]; left; exact h2
    · have := hok id0 hk0
      rw [hr] at this
      cases this
  | transfer id0 a =>
    obtain ⟨hmain, hmem, rfl⟩ := step?_transfer h
    obtain ⟨ha, hk0⟩ := hsend (id0, a) hmem
    simp only at ha hk0
    refine ⟨fun p hp => hsend p (List.mem_of_mem_erase hp), fun id hk => ?_⟩
    have hrest : id ≠ id0 → id ∈ s.sending.map Prod.fst →
        id ∈ (s.sending.erase (id0, a)).map Prod.fst := by
      intro hq hin
      obtain ⟨p, hp, hp1⟩ := List.mem_map.1 hin
      refine List.mem_map.2 ⟨p, (List.mem_erase_of_ne ?_).2 hp, hp1⟩
      intro hpe
      rw [hpe] at hp1
      exact hq hp1.symm
    by_cases hq : id = id0
    · subst hq
      left
      by_cases hz : a = zeroAuthor
      · simp only [hz, ne_eq, not_true_eq_false, if_false]
        rcases hmap id hk with h1 | ⟨h1, _⟩
        · exact h1
        · rw [h1, ← ha, hz]
      · have hAid : a.ID = id := by
          rcases hid id hk with h3 | h3
          · exact absurd (ha.trans h3) hz
          · rw [ha]; exact h3
        simp only [ne_eq, hz, not_false_eq_true, if_true, hAid, mapGet_mapSet, ← ha]
    · have hget : mapGet (if a ≠ zeroAuthor then mapSet s.mapAuthors a.ID a else s.mapAuthors) id
          = mapGet s.mapAuthors id := by
        by_cases hz : a = zeroAuthor
        · simp [hz]
        · have hAid : a.ID = id0 := by
            rcases hid id0 hk0 with h3 | h3
            · exact absurd (ha.trans h3) hz
            · rw [ha]; exact h3
          simp only [ne_eq, hz, not_false_eq_true, if_true, hAid, mapGet_mapSet, hq, if_false]
      simp only [hget]
      rcases hmap id hk with h1 | ⟨h1, h2⟩
      · exact Or.inl h1
      · refine Or.inr ⟨h1, ?_⟩
        rcases h2 with h2 | h2 | h2
        · left; exact h2
        · right; left; exact h2
        · right; right; exact hrest hq h2
  | waiterWake =>
    obtain ⟨hw, hp, hsn, hcase⟩ := step?_waiterWake h
    rcases hcase with ⟨e, he, rfl⟩ | ⟨he, rfl⟩ <;> exact ⟨hsend, hmap⟩
  | rangeEnd =>
    obtain ⟨hmain, hcl, rfl⟩ := step?_rangeEnd h
    refine ⟨hsend, fun id hk => ?_⟩
    have := hmap id hk
    rw [hmain] at this
    exact this
  | finish =>
    obtain ⟨hmain, _, _, rfl⟩ := step?_finish h
    refine ⟨hsend, fun id hk => ?_⟩
    have := hmap id hk
    rw [hmain] at this
    exact this

/-- When no lookup fails and every author comes back zero or under the id it
was asked for, every run ends with each key of the map holding its looked-up
author. -/
theorem final_map {repo : AuthorRepository} {data : List Article}
    (hok : ∀ id ∈ mapKeys (collectAuthors data), (repo.GetByID id).2 = none)
    (hid : ∀ id ∈ mapKeys (collectAuthors data),
      (repo.GetByID id).1 = zeroAuthor ∨ (repo.GetByID id).1.ID = id)
    (sched : List Nat) :
    ∀ id ∈ mapKeys (collectAuthors data),
      mapGet (finalState repo sched data).mapAuthors id = some (repo.GetByID id).1 := by
  have hinv := exec_invariant repo data
    (fun s => CallsInv (mapKeys (collectAuthors data)) s ∧
      MapInv repo (mapKeys (collectAuthors data)) s)
    (fun ev s s1 hs h => ⟨CallsInv_step ev s s1 hs.1 h, MapInv_step hok hid ev s s1 hs.1 hs.2 h⟩)
    (stepsLeft (initState data)) sched (initState data)
    ⟨CallsInv_init data, MapInv_init repo data⟩
  have ht := finalState_terminal repo sched data
  obtain ⟨hret, hsn⟩ := Ok_terminal (Ok_final hok sched) ht
  intro id hk
  rcases hinv.2.2 id hk with h1 | ⟨_, h2⟩
  · exact h1
  · exfalso
    change _ ∨ _ ∨ _ at h2
    have hfs : exec repo data (stepsLeft (initState data)) sched (initState data)
        = finalState repo sched data := rfl
    rw [hfs, terminal_pending ht, hsn, hret] at h2
    simp [todoOf] at h2

theorem mergeAuthors_eq_map (repo : AuthorRepository) (m : AuthorMap) (data : List Article)
    (h : ∀ ar ∈ data, mapGet m ar.Author.ID = some (repo.GetByID ar.Author.ID).1) :
    mergeAuthors m data =
      data.map (fun ar => { ar with Author := (repo.GetByID ar.Author.ID).1 }) := by
  unfold mergeAuthors
  apply List.map_congr_left
  intro ar har
  rw [h ar har]

/-! ### The result of fillAuthorDetails -/

theorem mem_keys_iff (data : List Article) (id : Int) :
    id ∈ mapKeys (collectAuthors data) ↔ ∃ ar ∈ data, ar.Author.ID = id := by
  rw [mem_mapKeys_collectAuthors]
  simp

theorem fill_result_eq (a : usecase) (sched : List Nat) (data : List Article) :
    (fillAuthorDetails a sched data).result =
      match (finalState a.authorRepo sched data).main with
      | .returned res err => some (res, err)
      | _ => none := rfl

theorem fill_calls_eq (a : usecase) (sched : List Nat) (data : List Article) :
    (fillAuthorDetails a sched data).calls =
      (finalState a.authorRepo sched data).calls.map Call.authorGetByID := rfl

/-- When no lookup fails and every author comes back zero or under the id it
was asked for, `fillAuthorDetails` returns, under every schedule, the page with
each author replaced by what the lookup of its id returned. -/
theorem fill_result_of_ok (a : usecase) (sched : List Nat) (data : List Article)
    (hok : ∀ ar ∈ data, (a.authorRepo.GetByID ar.Author.ID).2 = none)
    (hid : ∀ ar ∈ data, (a.authorRepo.GetByID ar.Author.ID).1 = zeroAuthor ∨
      (a.authorRepo.GetByID ar.Author.ID).1.ID = ar.Author.ID) :
    (fillAuthorDetails a sched data).result =
      some (data.map (fun ar => { ar with Author := (a.authorRepo.GetByID ar.Author.ID).1 }),
        none) := by
  have hok2 : ∀ id ∈ mapKeys (collectAuthors data), (a.authorRepo.GetByID id).2 = none := by
    intro id hk
    obtain ⟨ar, har, rfl⟩ := (mem_keys_iff data id).1 hk
    exact hok ar har
  have hid2 : ∀ id ∈ mapKeys (collectAuthors data),
      (a.authorRepo.GetByID id).1 = zeroAuthor ∨ (a.authorRepo.GetByID id).1.ID = id := by
    intro id hk
    obtain ⟨ar, har, rfl⟩ := (mem_keys_iff data id).1 hk
    exact hid ar har
  rw [fill_result_eq, final_returned hok2 sched]
  simp only
  rw [mergeAuthors_eq_map a.authorRepo]
  intro ar har
  exact final_map hok2 hid2 sched _ ((mem_keys_iff data _).2 ⟨ar, har, rfl⟩)

/-- When some lookup fails, `fillAuthorDetails` never returns: under every
schedule the run ends with the caller in the collection loop and the channel
open. -/
theorem fill_blocked_of_failing (a : usecase) (sched : List Nat) (data : List Article)
    (hfail : ∃ ar ∈ data, (a.authorRepo.GetByID ar.Author.ID).2 ≠ none) :
    (fillAuthorDetails a sched data).result = none ∧
      (finalState a.authorRepo sched data).main = .ranging ∧
      (finalState a.authorRepo sched data).closed = false := by
  obtain ⟨ar, har, hbad⟩ := hfail
  have hmem : ar.Author.ID ∈ data.map (fun ar => ar.Author.ID) := List.mem_map.2 ⟨ar, har, rfl⟩
  have h := stuck_of_failing a.authorRepo sched data ar.Author.ID hmem hbad
  refine ⟨?_, h⟩
  rw [fill_result_eq, h.1]

/-! ## The claims -/

/-- C1: for every page whose author lookups all succeed and every schedule,
the calls `fillAuthorDetails` makes on `AuthorRepository.GetByID` are exactly
the distinct author ids of the page, each once and none twice; their number K
is the number of distinct ids and is at most the number N of articles. -/
theorem fillAuthorDetails_one_lookup_per_author (a : usecase) (sched : List Nat)
    (data : List Article)
    (hok : ∀ ar ∈ data, (a.authorRepo.GetByID ar.Author.ID).2 = none) :
    (fillAuthorDetails a sched data).result.isSome = true ∧
    (fillAuthorDetails a sched data).calls.Perm
      ((data.map (fun ar => ar.Author.ID)).dedup.map Call.authorGetByID) ∧
    (fillAuthorDetails a sched data).calls.Nodup ∧
    (fillAuthorDetails a sched data).calls.length
      = (data.map (fun ar => ar.Author.ID)).dedup.length ∧
    (data.map (fun ar => ar.Author.ID)).dedup.length ≤ data.length := by
  have hperm : (fillAuthorDetails a sched data).calls.Perm
      ((data.map (fun ar => ar.Author.ID)).dedup.map Call.authorGetByID) := by
    rw [fill_calls_eq]
    exact ((calls_final_perm a.authorRepo sched data).trans
      (mapKeys_collectAuthors_perm data)).map _
  have hinj : Function.Injective Call.authorGetByID := by
    intro x y hxy
    cases hxy
    rfl
  have hok2 : ∀ id ∈ mapKeys (collectAuthors data), (a.authorRepo.GetByID id).2 = none := by
    intro id hk
    obtain ⟨ar, har, rfl⟩ := (mem_keys_iff data id).1 hk
    exact hok ar har
  refine ⟨?_, hperm, ?_, ?_, ?_⟩
  · rw [fill_result_eq, final_returned hok2 sched]
    rfl
  · exact hperm.nodup_iff.2 ((List.nodup_dedup _).map hinj)
  · rw [hperm.length_eq, List.length_map]
  · have := (List.dedup_sublist (data.map (fun ar => ar.Author.ID))).length_le
    simpa using this

theorem fillAuthorDetails_one_lookup_per_author_witness :
    (∀ ar ∈ samplePage, (sampleAuthors.GetByID ar.Author.ID).2 = none) ∧
    (fillAuthorDetails ⟨sampleArticles, sampleAuthors, 2⟩ [1, 0, 2] samplePage).result.isSome
      = true ∧
    (fillAuthorDetails ⟨sampleArticles, sampleAuthors, 2⟩ [1, 0, 2] samplePage).calls.Perm
      ((samplePage.map (fun ar => ar.Author.ID)).dedup.map Call.authorGetByID) ∧
    (fillAuthorDetails ⟨sampleArticles, sampleAuthors, 2⟩ [1, 0, 2] samplePage).calls.Nodup ∧
    (fillAuthorDetails ⟨sampleArticles, sampleAuthors, 2⟩ [1, 0, 2] samplePage).calls.length
      = (samplePage.map (fun ar => ar.Author.ID)).dedup.length ∧
    (samplePage.map (fun ar => ar.Author.ID)).dedup.length ≤ samplePage.length :=
  ⟨by decide,
    fillAuthorDetails_one_lookup_per_author ⟨sampleArticles, sampleAuthors, 2⟩ [1, 0, 2]
      samplePage (by decide)⟩

/-- C2: for every page and every schedule, if the lookup of every referenced
author id succeeds and returns a non-zero author carrying that id, then
`fillAuthorDetails` returns no error and the page in its order, each article
with its Author field replaced by the author returned for its author id. -/
theorem fillAuthorDetails_replaces_authors (a : usecase) (sched : List Nat)
    (data : List Article)
    (hok : ∀ ar ∈ data, (a.authorRepo.GetByID ar.Author.ID).2 = none ∧
      (a.authorRepo.GetByID ar.Author.ID).1 ≠ zeroAuthor ∧
      (a.authorRepo.GetByID ar.Author.ID).1.ID = ar.Author.ID) :
    (fillAuthorDetails a sched data).result =
      some (data.map (fun ar => { ar with Author := (a.authorRepo.GetByID ar.Author.ID).1 }),
        none) :=
  fill_result_of_ok a sched data (fun ar har => (hok ar har).1)
    (fun ar har => Or.inr (hok ar har).2.2)

theorem fillAuthorDetails_replaces_authors_witness :
    (∀ ar ∈ samplePage, (sampleAuthors.GetByID ar.Author.ID).2 = none ∧
      (sampleAuthors.GetByID ar.Author.ID).1 ≠ zeroAuthor ∧
      (sampleAuthors.GetByID ar.Author.ID).1.ID = ar.Author.ID) ∧
    (fillAuthorDetails ⟨sampleArticles, sampleAuthors, 2⟩ [2, 1, 0, 1] samplePage).result =
      some ([⟨1, "Hello", "Content", ⟨7, "A", 0, 0⟩, 0, 0⟩,
             ⟨2, "Hello", "Content", ⟨7, "A", 0, 0⟩, 0, 0⟩,
             ⟨3, "Hello", "Content", ⟨9, "B", 0, 0⟩, 0, 0⟩], none) :=
  ⟨by decide,
    fillAuthorDetails_replaces_authors ⟨sampleArticles, sampleAuthors, 2⟩ [2, 1, 0, 1]
      samplePage (by decide)⟩

/-- C3 (the code departs from the claim): when the lookup of author 7 returns
the zero Author and no error, the article referencing author 7 comes out of
`fillAuthorDetails`, under every schedule, with the zero Author in place of its
reference: its author id is 0, not 7. -/
theorem fillAuthorDetails_unresolved_author_zeroed (sched : List Nat) :
    (fillAuthorDetails ⟨sampleArticles, absentAuthors, 2⟩ sched [sampleArticle 1 7]).result =
      some ([⟨1, "Hello", "Content", zeroAuthor, 0, 0⟩], none) :=
  fill_result_of_ok ⟨sampleArticles, absentAuthors, 2⟩ sched [sampleArticle 1 7]
    (fun _ _ => rfl) (fun _ _ => Or.inl rfl)

theorem Fetch_of_store_ok (a : usecase) (sched : List Nat) (cursor : String) (num : Int)
    (page : List Article) (nextCursor : String)
    (hfetch : a.articleRepo.Fetch cursor (if num = 0 then 10 else num)
      = (page, nextCursor, none)) :
    Fetch a sched cursor num =
      { result := (fillAuthorDetails a sched page).result.map (fetchReturn nextCursor),
        calls := .articleFetch cursor (if num = 0 then 10 else num) ::
          (fillAuthorDetails a sched page).calls } := by
  simp only [Fetch, hfetch]

theorem Fetch_of_store_err (a : usecase) (sched : List Nat) (cursor : String) (num : Int)
    (res : List Article) (nextCursor : String) (err : Error)
    (hfetch : a.articleRepo.Fetch cursor (if num = 0 then 10 else num)
      = (res, nextCursor, some err)) :
    Fetch a sched cursor num =
      { result := some ([], "", some err),
        calls := [.articleFetch cursor (if num = 0 then 10 else num)] } := by
  simp only [Fetch, hfetch]

/-- C4 (the code departs from the claim): the store returns the sample page
without error and the lookup of author 9 fails; under every schedule `Fetch`
does not return that error with an empty next-cursor and the already-fetched
page: it does not return to its caller at all. -/
theorem Fetch_enrichment_failure_blocks (sched : List Nat) :
    (Fetch ⟨sampleArticles, failingAuthors, 2⟩ sched "" 3).result = none ∧
      (Fetch ⟨sampleArticles, failingAuthors, 2⟩ sched "" 3).result ≠
        some (samplePage, "", some (Error.other "Unexpected Error")) := by
  have hfail : ∃ ar ∈ samplePage, (failingAuthors.GetByID ar.Author.ID).2 ≠ none := by
    decide
  have hnone : (Fetch ⟨sampleArticles, failingAuthors, 2⟩ sched "" 3).result = none := by
    rw [Fetch_of_store_ok ⟨sampleArticles, failingAuthors, 2⟩ sched "" 3 samplePage
      "next-cursor" rfl]
    simp only [(fill_blocked_of_failing ⟨sampleArticles, failingAuthors, 2⟩ sched samplePage
      hfail).1, Option.map_none']
  refine ⟨hnone, ?_⟩
  rw [hnone]
  exact fun h => nomatch h

/-- C5 (the code departs from the claim): the store holds article 1 under the
title "Hello" and the lookup of its author fails; `Store` of a new article with
that title does not return ErrConflict: it calls `ArticleRepository.Store` and
returns its result. -/
theorem Store_existing_title_author_failure :
    Store ⟨sampleArticles, ⟨fun _ => (zeroAuthor, some (Error.other "Unexpected Error"))⟩, 2⟩
        ⟨0, "Hello", "Content", zeroAuthor, 0, 0⟩ =
      ((⟨2, "Hello", "Content", zeroAuthor, 0, 0⟩, none),
        [Call.articleGetByTitle "Hello", Call.authorGetByID 7,
          Call.articleStore ⟨0, "Hello", "Content", zeroAuthor, 0, 0⟩]) := by
  decide

/-- C6 (the code departs from the claim): for every page, if the lookup of some
referenced author id returns an error then, under every schedule,
`fillAuthorDetails` does not return: the run ends with nothing enabled, the
caller in the collection loop of line 76 and the channel never closed. -/
theorem fillAuthorDetails_blocks_on_lookup_error (a : usecase) (sched : List Nat)
    (data : List Article)
    (hfail : ∃ ar ∈ data, (a.authorRepo.GetByID ar.Author.ID).2 ≠ none) :
    (fillAuthorDetails a sched data).result = none ∧
      (finalState a.authorRepo sched data).main = .ranging ∧
      (finalState a.authorRepo sched data).closed = false ∧
      enabled a.authorRepo data (finalState a.authorRepo sched data) = [] := by
  obtain ⟨h1, h2, h3⟩ := fill_blocked_of_failing a sched data hfail
  exact ⟨h1, h2, h3, finalState_terminal a.authorRepo sched data⟩

theorem fillAuthorDetails_blocks_on_lookup_error_witness :
    (∃ ar ∈ samplePage, (failingAuthors.GetByID ar.Author.ID).2 ≠ none) ∧
    ((fillAuthorDetails ⟨sampleArticles, failingAuthors, 2⟩ [0, 1] samplePage).result = none ∧
      (finalState failingAuthors [0, 1] samplePage).main = .ranging ∧
      (finalState failingAuthors [0, 1] samplePage).closed = false ∧
      enabled failingAuthors samplePage (finalState failingAuthors [0, 1] samplePage) = []) :=
  ⟨by decide,
    fillAuthorDetails_blocks_on_lookup_error ⟨sampleArticles, failingAuthors, 2⟩ [0, 1]
      samplePage (by decide)⟩

/-- C7 (the code departs from the claim): for every page the article store
returns without error, if the lookup of some referenced author id returns an
error (a deadline that has passed shows as such an error) then, under every
schedule, `Fetch` does not return to its caller. -/
theorem Fetch_blocks_on_lookup_error (a : usecase) (sched : List Nat) (cursor : String)
    (num : Int) (page : List Article) (nextCursor : String)
    (hfetch : a.articleRepo.Fetch cursor (if num = 0 then 10 else num)
      = (page, nextCursor, none))
    (hfail : ∃ ar ∈ page, (a.authorRepo.GetByID ar.Author.ID).2 ≠ none) :
    (Fetch a sched cursor num).result = none := by
  rw [Fetch_of_store_ok a sched cursor num page nextCursor hfetch]
  simp only [(fill_blocked_of_failing a sched page hfail).1, Option.map_none']

theorem Fetch_blocks_on_lookup_error_witness :
    sampleArticles.Fetch "12" (if (1 : Int) = 0 then 10 else 1)
        = (samplePage, "next-cursor", none) ∧
      (∃ ar ∈ samplePage, (failingAuthors.GetByID ar.Author.ID).2 ≠ none) ∧
      (Fetch ⟨sampleArticles, failingAuthors, 2⟩ [3, 1, 2] "12" 1).result = none :=
  ⟨rfl, by decide,
    Fetch_blocks_on_lookup_error ⟨sampleArticles, failingAuthors, 2⟩ [3, 1, 2] "12" 1
      samplePage "next-cursor" rfl (by decide)⟩

/-- C8: for every id, `Delete` returns the error of the existence check
unchanged when `ArticleRepository.GetByID` fails, returns ErrNotFound when the
check yields the zero Article and no error, and otherwise returns the result of
`ArticleRepository.Delete`; the repository's `Delete` is called in the last case
only. -/
theorem Delete_checks_existence (a : usecase) (id : Int) :
    (∀ art err, a.articleRepo.GetByID id = (art, some err) →
      Delete a id = (some err, [Call.articleGetByID id])) ∧
    (a.articleRepo.GetByID id = (zeroArticle, none) →
      Delete a id = (some Error.ErrNotFound, [Call.articleGetByID id])) ∧
    (∀ art, a.articleRepo.GetByID id = (art, none) → art ≠ zeroArticle →
      Delete a id =
        (a.articleRepo.Delete id, [Call.articleGetByID id, Call.articleDelete id])) ∧
    (Call.articleDelete id ∈ (Delete a id).2 ↔
      ∃ art, a.articleRepo.GetByID id = (art, none) ∧ art ≠ zeroArticle) := by
  refine ⟨?_, ?_, ?_, ?_⟩
  · intro art err h
    simp only [Delete, h]
  · intro h
    simp only [Delete, h, if_true]
  · intro art h hne
    simp only [Delete, h, hne, if_false]
  · rcases hget : a.articleRepo.GetByID id with ⟨art, _ | err⟩
    · by_cases hz : art = zeroArticle
      · simp [Delete, hget, hz]
      · simp [Delete, hget, hz]
    · simp [Delete, hget]

theorem Delete_checks_existence_witness :
    Delete ⟨brokenArticles, sampleAuthors, 2⟩ 1
        = (some (Error.other "Unexpected Error"), [Call.articleGetByID 1]) ∧
      Delete ⟨sampleArticles, sampleAuthors, 2⟩ 1
        = (none, [Call.articleGetByID 1, Call.articleDelete 1]) :=
  ⟨(Delete_checks_existence ⟨brokenArticles, sampleAuthors, 2⟩ 1).1 zeroArticle
      (Error.other "Unexpected Error") rfl,
    (Delete_checks_existence ⟨sampleArticles, sampleAuthors, 2⟩ 1).2.2.1 (sampleArticle 1 7) rfl
      (by decide)⟩

/-- C9: for every cursor and count and every schedule, the first call `Fetch`
makes is `ArticleRepository.Fetch` with the cursor unchanged and with limit 10
when the count is 0, the caller's count otherwise; it makes no other call on
`ArticleRepository.Fetch`. -/
theorem Fetch_passes_cursor_and_default_count (a : usecase) (sched : List Nat)
    (cursor : String) (num : Int) :
    (Fetch a sched cursor num).calls.head? =
        some (Call.articleFetch cursor (if num = 0 then 10 else num)) ∧
      (Fetch a sched cursor 0).calls.head? = some (Call.articleFetch cursor 10) ∧
      ∀ c n, ((Fetch a sched cursor num).calls.tail).count (Call.articleFetch c n) = 0 := by
  have key : ∀ k : Int, (Fetch a sched cursor k).calls.head? =
      some (Call.articleFetch cursor (if k = 0 then 10 else k)) ∧
      ∀ c n, ((Fetch a sched cursor k).calls.tail).count (Call.articleFetch c n) = 0 := by
    intro k
    rcases hf : a.articleRepo.Fetch cursor (if k = 0 then 10 else k) with ⟨res, nc, _ | err⟩
    · rw [Fetch_of_store_ok a sched cursor k res nc hf]
      refine ⟨rfl, fun c n => ?_⟩
      simp only [List.tail_cons, fill_calls_eq, List.count_eq_zero, List.mem_map, not_exists,
        not_and]
      intro x _ hx
      cases hx
    · rw [Fetch_of_store_err a sched cursor k res nc err hf]
      exact ⟨rfl, fun c n => rfl⟩
  exact ⟨(key num).1, (key 0).1, (key num).2⟩

/-- C10: for every cursor and count, if `ArticleRepository.Fetch` returns an
error, `Fetch` returns that error with an empty article list and an empty
next-cursor, and its only repository call is that one: no author is looked up. -/
theorem Fetch_store_error (a : usecase) (sched : List Nat) (cursor : String) (num : Int)
    (res : List Article) (nextCursor : String) (err : Error)
    (hfetch : a.articleRepo.Fetch cursor (if num = 0 then 10 else num)
      = (res, nextCursor, some err)) :
    (Fetch a sched cursor num).result = some ([], "", some err) ∧
      (Fetch a sched cursor num).calls =
        [Call.articleFetch cursor (if num = 0 then 10 else num)] ∧
      ∀ id, Call.authorGetByID id ∉ (Fetch a sched cursor num).calls := by
  rw [Fetch_of_store_err a sched cursor num res nextCursor err hfetch]
  refine ⟨rfl, rfl, fun id h => ?_⟩
  simp at h

theorem Fetch_store_error_witness :
    brokenArticles.Fetch "12" (if (1 : Int) = 0 then 10 else 1)
        = ([], "", some (Error.other "Unexpexted Error")) ∧
      ((Fetch ⟨brokenArticles, sampleAuthors, 2⟩ [] "12" 1).result
        = some ([], "", some (Error.other "Unexpexted Error")) ∧
      (Fetch ⟨brokenArticles, sampleAuthors, 2⟩ [] "12" 1).calls =
        [Call.articleFetch "12" (if (1 : Int) = 0 then 10 else 1)] ∧
      ∀ id, Call.authorGetByID id ∉ (Fetch ⟨brokenArticles, sampleAuthors, 2⟩ [] "12" 1).calls) :=
  ⟨rfl, Fetch_store_error ⟨brokenArticles, sampleAuthors, 2⟩ [] "12" 1 [] ""
    (Error.other "Unexpexted Error") rfl⟩

/-! ### What the caller returns, and the merge loop -/

theorem RetInv_step {repo : AuthorRepository} {data : List Article}
    (ev : Event) (s s1 : State)
    (hs : RetInv data s) (h : step? repo data ev s = some s1) : RetInv data s1 := by
  intro res err hm
  cases ev with
  | spawn id =>
    obtain ⟨todo, hmain, hid, rfl⟩ := step?_spawn h
    cases hm
  | goWaiter =>
    obtain ⟨hmain, rfl⟩ := step?_goWaiter h
    cases hm
  | lookup id =>
    obtain ⟨hid, hcase⟩ := step?_lookup h
    rcases hcase with ⟨r, hr, rfl⟩ | ⟨r, e, hr, rfl⟩ <;> exact hs res err hm
  | transfer id a =>
    obtain ⟨hmain, hid, rfl⟩ := step?_transfer h
    exact hs res err hm
  | waiterWake =>
    obtain ⟨hw, hp, hsn, hcase⟩ := step?_waiterWake h
    rcases hcase with ⟨e, he, rfl⟩ | ⟨he, rfl⟩ <;> exact hs res err hm
  | rangeEnd =>
    obtain ⟨hmain, hcl, rfl⟩ := step?_rangeEnd h
    cases hm
  | finish =>
    obtain ⟨hmain, _, _, rfl⟩ := step?_finish h
    simp only [MainPC.returned.injEq] at hm
    exact ⟨s.gerr, s.mapAuthors, by rw [← hm.1, ← hm.2]⟩

theorem RetInv_final (repo : AuthorRepository) (sched : List Nat) (data : List Article) :
    RetInv data (finalState repo sched data) :=
  exec_invariant repo data _ (fun ev s s1 => RetInv_step ev s s1) _ sched _
    (fun _ _ h => by cases h)

/-- Whenever `fillAuthorDetails` returns without error, it returns the merge
of some map into the page. -/
theorem fill_result_is_merge (a : usecase) (sched : List Nat) (data res : List Article)
    (h : (fillAuthorDetails a sched data).result = some (res, none)) :
    ∃ m : AuthorMap, res = mergeAuthors m data := by
  rw [fill_result_eq] at h
  cases hm : (finalState a.authorRepo sched data).main with
  | spawning todo => rw [hm] at h; cases h
  | ranging => rw [hm] at h; cases h
  | waiting => rw [hm] at h; cases h
  | returned r e =>
    rw [hm] at h
    simp only [Option.some.injEq, Prod.mk.injEq] at h
    obtain ⟨g, m, hg⟩ := RetInv_final a.authorRepo sched data r e hm
    cases g with
    | none =>
      simp only [afterCollect, Prod.mk.injEq] at hg
      exact ⟨m, by rw [← h.1, hg.1]⟩
    | some e2 =>
      simp only [afterCollect, Prod.mk.injEq] at hg
      rw [h.2] at hg
      cases hg.2

/-- When no lookup fails, `fillAuthorDetails` returns, under every schedule,
the merge of the final map into the page, and no error. -/
theorem fill_result_of_no_error (a : usecase) (sched : List Nat) (data : List Article)
    (hok : ∀ ar ∈ data, (a.authorRepo.GetByID ar.Author.ID).2 = none) :
    (fillAuthorDetails a sched data).result =
      some (mergeAuthors (finalState a.authorRepo sched data).mapAuthors data, none) := by
  have hok2 : ∀ id ∈ mapKeys (collectAuthors data), (a.authorRepo.GetByID id).2 = none := by
    intro id hk
    obtain ⟨ar, har, rfl⟩ := (mem_keys_iff data id).1 hk
    exact hok ar har
  rw [fill_result_eq, final_returned hok2 sched]

theorem mergeAuthors_length (m : AuthorMap) (data : List Article) :
    (mergeAuthors m data).length = data.length := by
  simp [mergeAuthors]

theorem mergeAuthors_getElem (m : AuthorMap) (data : List Article) (i : Nat)
    (hr : i < (mergeAuthors m data).length) (hd : i < data.length) :
    (mergeAuthors m data)[i].ID = data[i].ID ∧
    (mergeAuthors m data)[i].Title = data[i].Title ∧
    (mergeAuthors m data)[i].Content = data[i].Content ∧
    (mergeAuthors m data)[i].CreatedAt = data[i].CreatedAt ∧
    (mergeAuthors m data)[i].UpdatedAt = data[i].UpdatedAt := by
  simp only [mergeAuthors, List.getElem_map]
  split <;> simp

theorem toInt_of_int64 (num : Int) (hlo : -2 ^ 63 ≤ num) (hhi : num < 2 ^ 63) :
    toInt num = num := by
  unfold toInt
  have h1 : (num + 2 ^ 63) % 2 ^ 64 = num + 2 ^ 63 :=
    Int.emod_eq_of_lt (by omega) (by omega)
  omega

theorem indexArticle_last (res : List Article) (h : res ≠ []) :
    ∃ last, indexArticle res ((res.length : Int) - 1) = some last := by
  have hpos : 0 < res.length := List.length_pos.2 h
  have hlt : ((res.length : Int) - 1).toNat < res.length := by omega
  refine ⟨res[((res.length : Int) - 1).toNat], ?_⟩
  unfold indexArticle
  rw [if_pos (by omega)]
  exact List.getElem?_eq_getElem hlt

/-- The limit the usecase passes to `ArticleRepository.Fetch` is never 0. -/
theorem Fetch_limit_ne_zero (a : usecase) (sched : List Nat) (cursor : String) (num : Int)
    (c : String) (k : Int) (h : Call.articleFetch c k ∈ (Fetch a sched cursor num).calls) :
    k ≠ 0 := by
  have hk : (if num = 0 then (10 : Int) else num) ≠ 0 := by
    split
    · decide
    · assumption
  rcases hf : a.articleRepo.Fetch cursor (if num = 0 then 10 else num) with ⟨res, nc, _ | err⟩
  · rw [Fetch_of_store_ok a sched cursor num res nc hf] at h
    simp only [List.mem_cons, Call.articleFetch.injEq, fill_calls_eq, List.mem_map] at h
    rcases h with h | ⟨x, _, hx⟩
    · rw [h.2]; exact hk
    · cases hx
  · rw [Fetch_of_store_err a sched cursor num res nc err hf] at h
    simp only [List.mem_singleton, Call.articleFetch.injEq] at h
    rw [h.2]; exact hk

/-- With limit 0 and no row after the cursor, line 80 indexes the empty page
at -1: the guard on the limit in the later claim cannot be dropped. -/
theorem mysqlFetch_zero_limit_panics : sampleMysql.Fetch "" 0 = none := by
  decide

/-- C11: for every page and next-cursor the article store returns without
error, if every author lookup succeeds then, under every schedule, `Fetch`
returns no error, the store's next-cursor unchanged, and a list with exactly
as many articles as the store's page. -/
theorem Fetch_success (a : usecase) (sched : List Nat) (cursor : String) (num : Int)
    (page : List Article) (nextCursor : String)
    (hfetch : a.articleRepo.Fetch cursor (if num = 0 then 10 else num)
      = (page, nextCursor, none))
    (hok : ∀ ar ∈ page, (a.authorRepo.GetByID ar.Author.ID).2 = none) :
    ∃ res, (Fetch a sched cursor num).result = some (res, nextCursor, none) ∧
      res.length = page.length := by
  refine ⟨mergeAuthors (finalState a.authorRepo sched page).mapAuthors page, ?_,
    mergeAuthors_length _ _⟩
  rw [Fetch_of_store_ok a sched cursor num page nextCursor hfetch]
  simp only [fill_result_of_no_error a sched page hok, Option.map_some', fetchReturn]

theorem Fetch_success_witness :
    sampleArticles.Fetch "12" (if (1 : Int) = 0 then 10 else 1)
        = (samplePage, "next-cursor", none) ∧
      (∀ ar ∈ samplePage, (sampleAuthors.GetByID ar.Author.ID).2 = none) ∧
      ∃ res, (Fetch ⟨sampleArticles, sampleAuthors, 2⟩ [1, 2, 0] "12" 1).result
          = some (res, "next-cursor", none) ∧
        res.length = samplePage.length :=
  ⟨rfl, by decide,
    Fetch_success ⟨sampleArticles, sampleAuthors, 2⟩ [1, 2, 0] "12" 1 samplePage "next-cursor"
      rfl (by decide)⟩

/-- C12: for every id, `GetByID` returns the store's article and error
unchanged, without an author lookup, when the store lookup fails; the zero
Article and the lookup's error when the article is found and
`AuthorRepository.GetByID` on its author id fails; and otherwise the store's
article with only its Author field replaced by the looked-up author, and no
error. `GetByTitle` does the same, keyed by title. -/
theorem GetByID_and_GetByTitle_cases (a : usecase) (id : Int) (title : String) :
    (∀ art err, a.articleRepo.GetByID id = (art, some err) →
      GetByID a id = ((art, some err), [Call.articleGetByID id])) ∧
    (∀ art au err, a.articleRepo.GetByID id = (art, none) →
      a.authorRepo.GetByID art.Author.ID = (au, some err) →
      GetByID a id =
        ((zeroArticle, some err), [Call.articleGetByID id, Call.authorGetByID art.Author.ID])) ∧
    (∀ art au, a.articleRepo.GetByID id = (art, none) →
      a.authorRepo.GetByID art.Author.ID = (au, none) →
      GetByID a id =
        ((⟨art.ID, art.Title, art.Content, au, art.UpdatedAt, art.CreatedAt⟩, none),
          [Call.articleGetByID id, Call.authorGetByID art.Author.ID])) ∧
    (∀ art err, a.articleRepo.GetByTitle title = (art, some err) →
      GetByTitle a title = ((art, some err), [Call.articleGetByTitle title])) ∧
    (∀ art au err, a.articleRepo.GetByTitle title = (art, none) →
      a.authorRepo.GetByID art.Author.ID = (au, some err) →
      GetByTitle a title =
        ((zeroArticle, some err),
          [Call.articleGetByTitle title, Call.authorGetByID art.Author.ID])) ∧
    (∀ art au, a.articleRepo.GetByTitle title = (art, none) →
      a.authorRepo.GetByID art.Author.ID = (au, none) →
      GetByTitle a title =
        ((⟨art.ID, art.Title, art.Content, au, art.UpdatedAt, art.CreatedAt⟩, none),
          [Call.articleGetByTitle title, Call.authorGetByID art.Author.ID])) := by
  refine ⟨?_, ?_, ?_, ?_, ?_, ?_⟩
  · intro art err h
    simp only [GetByID, h]
  · intro art au err h h2
    simp only [GetByID, h, h2]
  · intro art au h h2
    simp only [GetByID, h, h2]
  · intro art err h
    simp only [GetByTitle, h]
  · intro art au err h h2
    simp only [GetByTitle, h, h2]
  · intro art au h h2
    simp only [GetByTitle, h, h2]

theorem GetByID_and_GetByTitle_cases_witness :
    GetByID ⟨sampleArticles, sampleAuthors, 2⟩ 1 =
        ((⟨1, "Hello", "Content", ⟨7, "A", 0, 0⟩, 0, 0⟩, none),
          [Call.articleGetByID 1, Call.authorGetByID 7]) ∧
      GetByTitle ⟨sampleArticles, failingAuthors, 2⟩ "Nothing" =
        ((zeroArticle, some Error.ErrNotFound), [Call.articleGetByTitle "Nothing"]) :=
  ⟨(GetByID_and_GetByTitle_cases ⟨sampleArticles, sampleAuthors, 2⟩ 1 "Hello").2.2.1
      (sampleArticle 1 7) ⟨7, "A", 0, 0⟩ rfl rfl,
    (GetByID_and_GetByTitle_cases ⟨sampleArticles, failingAuthors, 2⟩ 1 "Nothing").2.2.2.1
      zeroArticle Error.ErrNotFound rfl⟩

/-- C13: for every page and every schedule (every order in which the lookup
results are collected), if `fillAuthorDetails` returns without error then its
output has the length of the input and, at every index, the id, title,
content, createdAt and updatedAt of the input article. -/
theorem fillAuthorDetails_keeps_order_and_fields (a : usecase) (sched : List Nat)
    (data res : List Article)
    (h : (fillAuthorDetails a sched data).result = some (res, none)) :
    res.length = data.length ∧
      ∀ (i : Nat) (hr : i < res.length) (hd : i < data.length),
        res[i].ID = data[i].ID ∧ res[i].Title = data[i].Title ∧
        res[i].Content = data[i].Content ∧ res[i].CreatedAt = data[i].CreatedAt ∧
        res[i].UpdatedAt = data[i].UpdatedAt := by
  obtain ⟨m, rfl⟩ := fill_result_is_merge a sched data res h
  exact ⟨mergeAuthors_length m data, fun i hr hd => mergeAuthors_getElem m data i hr hd⟩

theorem fillAuthorDetails_keeps_order_and_fields_witness :
    (fillAuthorDetails ⟨sampleArticles, sampleAuthors, 2⟩ [0, 1, 1] samplePage).result =
        some (enrichedPage, none) ∧
      (enrichedPage.length = samplePage.length ∧
      ∀ (i : Nat) (_ : i < enrichedPage.length) (hd : i < samplePage.length),
        enrichedPage[i].ID = samplePage[i].ID ∧ enrichedPage[i].Title = samplePage[i].Title ∧
        enrichedPage[i].Content = samplePage[i].Content ∧
        enrichedPage[i].CreatedAt = samplePage[i].CreatedAt ∧
        enrichedPage[i].UpdatedAt = samplePage[i].UpdatedAt) :=
  ⟨by decide,
    fillAuthorDetails_keeps_order_and_fields ⟨sampleArticles, sampleAuthors, 2⟩ [0, 1, 1]
      samplePage enrichedPage (by decide)⟩

/-- C14: for every article ar and current time t, `Update` calls
`ArticleRepository.Update` exactly once, with ar whose UpdatedAt is set to t
and whose other fields are unchanged, makes no other repository call, and
returns that call's error unchanged. -/
theorem Update_stamps_and_delegates (a : usecase) (t : Int) (ar : Article) :
    ∃ stamped : Article,
      stamped.UpdatedAt = t ∧ stamped.ID = ar.ID ∧ stamped.Title = ar.Title ∧
      stamped.Content = ar.Content ∧ stamped.Author = ar.Author ∧
      stamped.CreatedAt = ar.CreatedAt ∧
      (Update a t ar).2 = [Call.articleUpdate stamped] ∧
      (Update a t ar).1 = a.articleRepo.Update stamped ∧
      (Update a t ar).1.2 = (a.articleRepo.Update stamped).2 :=
  ⟨{ ar with UpdatedAt := t }, rfl, rfl, rfl, rfl, rfl, rfl, rfl, rfl, rfl⟩

/-- C15: for the empty article sequence and every schedule, `fillAuthorDetails`
makes no author lookup and returns the empty sequence with no error. -/
theorem fillAuthorDetails_empty (a : usecase) (sched : List Nat) :
    (fillAuthorDetails a sched []).result = some ([], none) ∧
      (fillAuthorDetails a sched []).calls = [] := by
  constructor
  · exact fill_result_of_ok a sched [] (fun _ h => by cases h) (fun _ h => by cases h)
  · rw [fill_calls_eq]
    have h := calls_final_perm a.authorRepo sched []
    have hk : mapKeys (collectAuthors []) = [] := rfl
    rw [hk] at h
    rw [List.Perm.eq_nil h]
    rfl

/-- C16: for every article m, whenever the usecase's title lookup yields the
zero Article, `Store` discards the lookup's error, calls
`ArticleRepository.Store` exactly once, with m, after the calls of the lookup,
and returns that call's result unchanged. The lookup yields the zero Article
when the store returns it with an error (not-found or any other) and when the
author lookup for an existing article fails. -/
theorem Store_after_empty_lookup (a : usecase) (m : Article) :
    ((GetByTitle a m.Title).1.1 = zeroArticle →
      Store a m = (a.articleRepo.Store m, (GetByTitle a m.Title).2 ++ [Call.articleStore m]) ∧
      (Store a m).2.count (Call.articleStore m) = 1 ∧
      ∀ x, Call.articleStore x ∈ (Store a m).2 → x = m) ∧
    (∀ err, a.articleRepo.GetByTitle m.Title = (zeroArticle, some err) →
      Store a m =
        (a.articleRepo.Store m, [Call.articleGetByTitle m.Title, Call.articleStore m])) ∧
    (∀ art au err, a.articleRepo.GetByTitle m.Title = (art, none) →
      a.authorRepo.GetByID art.Author.ID = (au, some err) →
      Store a m =
        (a.articleRepo.Store m,
          [Call.articleGetByTitle m.Title, Call.authorGetByID art.Author.ID,
            Call.articleStore m])) := by
  have hnone : ∀ x, Call.articleStore x ∉ (GetByTitle a m.Title).2 := by
    intro x
    rcases h1 : a.articleRepo.GetByTitle m.Title with ⟨art, _ | err⟩
    · rcases h2 : a.authorRepo.GetByID art.Author.ID with ⟨au, _ | err2⟩ <;>
        simp [GetByTitle, h1, h2]
    · simp [GetByTitle, h1]
  refine ⟨?_, ?_, ?_⟩
  · intro hz
    have hS : Store a m =
        (a.articleRepo.Store m, (GetByTitle a m.Title).2 ++ [Call.articleStore m]) := by
      simp only [Store, hz, ne_eq, not_true_eq_false, if_false]
    refine ⟨hS, ?_, ?_⟩
    · rw [hS]
      simp only [List.count_append, List.count_eq_zero.2 (hnone m), List.count_singleton_self]
    · intro x hx
      rw [hS] at hx
      simp only [List.mem_append, List.mem_singleton, Call.articleStore.injEq] at hx
      rcases hx with hx | hx
      · exact absurd hx (hnone x)
      · exact hx
  · intro err h
    simp [Store, GetByTitle, h]
  · intro art au err h h2
    simp [Store, GetByTitle, h, h2]

theorem Store_after_empty_lookup_witness :
    (GetByTitle ⟨sampleArticles, sampleAuthors, 2⟩ "Fresh").1.1 = zeroArticle ∧
      Store ⟨sampleArticles, sampleAuthors, 2⟩ ⟨0, "Fresh", "Content", zeroAuthor, 0, 0⟩ =
        ((⟨2, "Fresh", "Content", zeroAuthor, 0, 0⟩, none),
          [Call.articleGetByTitle "Fresh",
            Call.articleStore ⟨0, "Fresh", "Content", zeroAuthor, 0, 0⟩]) :=
  ⟨by decide,
    ((Store_after_empty_lookup ⟨sampleArticles, sampleAuthors, 2⟩
      ⟨0, "Fresh", "Content", zeroAuthor, 0, 0⟩).1 (by decide)).1⟩

/-- C17: in the MySQL article repository's `Fetch`, for every limit num other
than 0 (an int64) and every row list the query returns, the call does not
panic: the index expression of line 80 is evaluated only on a non-empty page
and is in bounds; and the next-cursor is empty whenever the page holds a number
of rows different from num. The usecase never passes the limit 0. -/
theorem mysqlFetch_last_row_in_bounds (m : mysqlArticleRepository) (cursor : String)
    (num : Int) (hnum : num ≠ 0) (hlo : -2 ^ 63 ≤ num) (hhi : num < 2 ^ 63) :
    (∃ r, m.Fetch cursor num = some r) ∧
    (∀ res nextCursor err, m.Fetch cursor num = some (res, nextCursor, err) →
      (res.length : Int) ≠ num → nextCursor = "") ∧
    (∀ decodedCursor res, m.fetch decodedCursor num = (res, none) →
      (res.length : Int) = toInt num →
      res ≠ [] ∧ ∃ last, indexArticle res ((res.length : Int) - 1) = some last) ∧
    (∀ (a : usecase) (sched : List Nat) (c0 c : String) (n k : Int),
      Call.articleFetch c k ∈ (Fetch a sched c0 n).calls → k ≠ 0) := by
  have hne : ∀ res : List Article, (res.length : Int) = toInt num → res ≠ [] := by
    intro res hlen hnil
    rw [toInt_of_int64 num hlo hhi, hnil] at hlen
    exact hnum hlen.symm
  refine ⟨?_, ?_, ?_, ?_⟩
  · unfold mysqlArticleRepository.Fetch
    rcases m.DecodeCursor cursor with ⟨dc, derr⟩
    simp only
    split
    · exact ⟨_, rfl⟩
    · rcases hq : m.fetch dc num with ⟨res, _ | err⟩
      · simp only
        split
        · rename_i hlen
          obtain ⟨last, hl⟩ := indexArticle_last res (hne res hlen)
          rw [hl]
          exact ⟨_, rfl⟩
        · exact ⟨_, rfl⟩
      · exact ⟨_, rfl⟩
  · intro res nextCursor err hF hlen
    unfold mysqlArticleRepository.Fetch at hF
    simp only at hF
    split at hF
    · simp only [Option.some.injEq, Prod.mk.injEq] at hF
      exact hF.2.1.symm
    · rcases hq : m.fetch (m.DecodeCursor cursor).1 num with ⟨rows, _ | e⟩
      · rw [hq] at hF
        simp only at hF
        split at hF
        · rename_i hl
          split at hF
          · simp only [Option.some.injEq, Prod.mk.injEq] at hF
            rw [hF.1, toInt_of_int64 num hlo hhi] at hl
            exact absurd hl hlen
          · cases hF
        · simp only [Option.some.injEq, Prod.mk.injEq] at hF
          exact hF.2.1.symm
      · rw [hq] at hF
        simp only [Option.some.injEq, Prod.mk.injEq] at hF
        exact hF.2.1.symm
  · intro dc res _ hlen
    exact ⟨hne res hlen, indexArticle_last res (hne res hlen)⟩
  · intro a sched c0 c n k h
    exact Fetch_limit_ne_zero a sched c0 n c k h

theorem mysqlFetch_last_row_in_bounds_witness :
    ((2 : Int) ≠ 0 ∧ -2 ^ 63 ≤ (2 : Int) ∧ (2 : Int) < 2 ^ 63) ∧
      sampleMysql.Fetch "" 2 =
        some ([{ sampleArticle 1 7 with CreatedAt := 1 }, { sampleArticle 2 7 with CreatedAt := 2 }],
          "c2", none) ∧
      sampleMysql.Fetch "c2" 2 = some ([{ sampleArticle 3 9 with CreatedAt := 3 }], "", none) ∧
      ∃ r, sampleMysql.Fetch "" 2 = some r :=
  ⟨by decide, by decide, by decide,
    (mysqlFetch_last_row_in_bounds sampleMysql "" 2 (by decide) (by decide) (by decide)).1⟩

end GoCleanArch
